import Mathlib

/-!
Verification of the snake-autopilot core of this repository.

The development shallowly embeds the JavaScript sources:
* `src/js/core/GridBounds.js` — grid geometry,
* `src/js/ai/Pathfinding.js` (the `GridBounds`-based version) — A*, BFS flood fill,
* `src/js/ai/HamiltonianCycle.js` — the serpentine cycle and the `AIController`.

Conventions of the embedding:
* JavaScript cells `{x, z}` with integer coordinates become the structure `Cell`.
* JavaScript string keys `"x,z"` are in bijection with cells, so every
  `Set`/`Map` keyed by such strings is modelled by cell-keyed data.
* JavaScript `%` on integers is truncated remainder, i.e. `Int.tmod`.
* `Infinity` results (`distanceForward` on an invalid cycle) become `Option`
  with `none` for `Infinity`.
* Unbounded `while` loops become fuel-indexed recursion; the fuel chosen is
  proven sufficient wherever a claim depends on it.
-/

namespace Snake

/-- A grid cell `{x, z}` with integer coordinates (also used for direction
vectors, which the source represents with the same shape). -/
structure Cell where
  x : Int
  z : Int
deriving DecidableEq, Repr

/-- `GridBounds` from `src/js/core/GridBounds.js`: `{width, height, minX, minZ}`
(the constructor validates `width ≥ 2`, `height ≥ 2`; `cellSize` only affects
world-space rendering and is omitted). -/
structure GridBounds where
  width : Nat
  height : Nat
  minX : Int
  minZ : Int
deriving DecidableEq, Repr

namespace GridBounds

def maxX (g : GridBounds) : Int := g.minX + g.width - 1

def maxZ (g : GridBounds) : Int := g.minZ + g.height - 1

def cellCount (g : GridBounds) : Nat := g.width * g.height

def inBounds (g : GridBounds) (pos : Cell) : Bool :=
  decide (g.minX ≤ pos.x) && decide (pos.x ≤ g.maxX) &&
    decide (g.minZ ≤ pos.z) && decide (pos.z ≤ g.maxZ)

def fromLocal (g : GridBounds) (localPos : Cell) : Cell :=
  ⟨g.minX + localPos.x, g.minZ + localPos.z⟩

end GridBounds

/-- Manhattan distance `|ax − bx| + |az − bz|` (`Pathfinding.heuristic` and the
adjacency check in `HamiltonianCycle.buildCycle`). -/
def manhattan (a b : Cell) : Nat :=
  (a.x - b.x).natAbs + (a.z - b.z).natAbs

/-- `Pathfinding.getNeighbors`: the four orthogonal neighbours, in source
order (up, down, left, right). -/
def getNeighbors (pos : Cell) : List Cell :=
  [⟨pos.x, pos.z - 1⟩, ⟨pos.x, pos.z + 1⟩, ⟨pos.x - 1, pos.z⟩, ⟨pos.x + 1, pos.z⟩]

/-- `Pathfinding.heuristic`: Manhattan distance. -/
def heuristic (a b : Cell) : Nat := manhattan a b

/-- `AIController.isOccupied`: membership of `pos` in an obstacle list by
componentwise equality. -/
def isOccupied (pos : Cell) (obstacles : List Cell) : Bool :=
  obstacles.any fun o => decide (o.x = pos.x) && decide (o.z = pos.z)

/-! ## HamiltonianCycle -/

/-- `HamiltonianCycle.buildCycleEvenWidth`: top row left-to-right, serpentine
over columns `1..width−1` for the interior rows, then column `0`
bottom-to-top. Local (pre-`fromLocal`) coordinates. -/
def buildCycleEvenWidth (width height : Nat) : List Cell :=
  (⟨0, 0⟩ : Cell) ::
    ((List.range' 1 (width - 1)).map fun x : Nat => (⟨(x : Int), 0⟩ : Cell)) ++
    ((List.range' 1 (height - 1)).map fun z : Nat =>
      if z % 2 = 1 then
        (⟨((width - 1 : Nat) : Int), (z : Int)⟩ : Cell) ::
          ((List.range' 1 (width - 2)).reverse.map fun x : Nat =>
            (⟨(x : Int), (z : Int)⟩ : Cell))
      else
        (⟨1, (z : Int)⟩ : Cell) ::
          ((List.range' 2 (width - 2)).map fun x : Nat =>
            (⟨(x : Int), (z : Int)⟩ : Cell))).flatten ++
    ((List.range' 1 (height - 1)).reverse.map fun z : Nat => (⟨0, (z : Int)⟩ : Cell))

/-- `HamiltonianCycle.buildCycleEvenHeight`: the axis-swapped construction. -/
def buildCycleEvenHeight (width height : Nat) : List Cell :=
  (⟨0, 0⟩ : Cell) ::
    ((List.range' 1 (height - 1)).map fun z : Nat => (⟨0, (z : Int)⟩ : Cell)) ++
    ((List.range' 1 (width - 1)).map fun x : Nat =>
      if x % 2 = 1 then
        (⟨(x : Int), ((height - 1 : Nat) : Int)⟩ : Cell) ::
          ((List.range' 1 (height - 2)).reverse.map fun z : Nat =>
            (⟨(x : Int), (z : Int)⟩ : Cell))
      else
        (⟨(x : Int), 1⟩ : Cell) ::
          ((List.range' 2 (height - 2)).map fun z : Nat =>
            (⟨(x : Int), (z : Int)⟩ : Cell))).flatten ++
    ((List.range' 1 (width - 1)).reverse.map fun x : Nat => (⟨(x : Int), 0⟩ : Cell))

/-- The consecutive-pair validation loop of `HamiltonianCycle.buildCycle`:
every pair `(order[i], order[(i+1) % len])` is Manhattan-adjacent at
distance 1. -/
def cycleAdjacent (order : List Cell) : Bool :=
  (List.range order.length).all fun i =>
    decide (manhattan (order.getD i ⟨0, 0⟩) (order.getD ((i + 1) % order.length) ⟨0, 0⟩) = 1)

/-- The `localOrder` selection of `HamiltonianCycle.buildCycle`. -/
def localCycleOrder (grid : GridBounds) : List Cell :=
  if grid.width % 2 = 0 then buildCycleEvenWidth grid.width grid.height
  else buildCycleEvenHeight grid.width grid.height

/-- `HamiltonianCycle.buildCycle`: dimension checks, construction, length
check, duplicate check (the `seen` key set) and adjacency check. `none`
models the `return false` (invalid-cycle) outcomes. -/
def buildCycle (grid : GridBounds) : Option (List Cell) :=
  if grid.width < 2 ∨ grid.height < 2 then none
  else if grid.width % 2 ≠ 0 ∧ grid.height % 2 ≠ 0 then none
  else if (localCycleOrder grid).length ≠ grid.width * grid.height then none
  else if ¬ ((localCycleOrder grid).map grid.fromLocal).Nodup then none
  else if ¬ cycleAdjacent ((localCycleOrder grid).map grid.fromLocal) then none
  else some ((localCycleOrder grid).map grid.fromLocal)

/-- The `HamiltonianCycle` instance state: `order` and `valid` as produced by
the constructor (`indexByKey` is recoverable from `order`, so it is not
carried separately). -/
structure HamiltonianCycle where
  grid : GridBounds
  order : List Cell
  valid : Bool
deriving Repr

def HamiltonianCycle.build (grid : GridBounds) : HamiltonianCycle :=
  match buildCycle grid with
  | some o => ⟨grid, o, true⟩
  | none => ⟨grid, [], false⟩

namespace HamiltonianCycle

def isValid (hc : HamiltonianCycle) : Bool := hc.valid

/-- `HamiltonianCycle.indexOf`: index in the cycle order, `−1` if absent. -/
def indexOf (hc : HamiltonianCycle) (pos : Cell) : Int :=
  match hc.order.findIdx? (fun c => decide (c = pos)) with
  | some i => i
  | none => -1

/-- `HamiltonianCycle.getCell`: modular lookup
(`((index % len) + len) % len` with JavaScript truncated `%`), `null` when
invalid or empty. -/
def getCell (hc : HamiltonianCycle) (index : Int) : Option Cell :=
  if ¬ hc.valid ∨ hc.order.length = 0 then none
  else
    let wrapped := ((index.tmod hc.order.length) + hc.order.length).tmod hc.order.length
    hc.order.get? wrapped.toNat

/-- `HamiltonianCycle.getNextCell`. -/
def getNextCell (hc : HamiltonianCycle) (pos : Cell) : Option Cell :=
  let index := hc.indexOf pos
  if index < 0 then none
  else hc.getCell (index + 1)

/-- `HamiltonianCycle.distanceForward`:
`(toIndex − fromIndex + len) % len` with JavaScript truncated `%`;
`none` models the `Infinity` returned on an invalid or empty cycle. -/
def distanceForward (hc : HamiltonianCycle) (fromIndex toIndex : Int) : Option Int :=
  if ¬ hc.valid ∨ hc.order.length = 0 then none
  else some ((toIndex - fromIndex + hc.order.length).tmod hc.order.length)

end HamiltonianCycle

/-! ## MoveSimulator -/

/-- `AIController.simulateMove`: reject out-of-bounds, self-collision on body
indices `i ≥ 1` (skipping the tail when not growing), and hazard cells;
otherwise prepend `nextPos` and drop the last segment when not growing.
The result pairs the new body with the `grows` flag, as the source's
`{snake, grows}` record does. -/
def simulateMove (grid : GridBounds) (bombPositions : List Cell)
    (snake : List Cell) (nextPos : Cell) (grows : Bool) : Option (List Cell × Bool) :=
  if ¬ grid.inBounds nextPos then none
  else if (List.range' 1 (snake.length - 1)).any (fun i =>
      !(decide (i = snake.length - 1) && !grows) && decide (snake.getD i ⟨0, 0⟩ = nextPos))
    then none
  else if isOccupied nextPos bombPositions then none
  else
    let nextSnake := nextPos :: snake
    some (if grows then nextSnake else nextSnake.dropLast, grows)

/-! ## Pathfinding -/

/-- The mutable state of `Pathfinding.findPath`'s main loop. `openSetKeys`
mirrors the open list's contents in the source, so only the list is carried;
the key maps (`cameFrom`, `gScore`, `fScore`) are cell-keyed functions. -/
structure AStarState where
  openSet : List Cell
  closedSet : List Cell
  cameFrom : Cell → Option Cell
  gScore : Cell → Option Nat
  fScore : Cell → Option Nat

/-- `nodeScore < bestScore` where a missing score reads as `Infinity`
(`fScore.get(key) ?? Infinity`). -/
def ltInf : Option Nat → Option Nat → Bool
  | none, _ => false
  | some _, none => true
  | some x, some y => decide (x < y)

/-- The lowest-`fScore` scan of `findPath` (strict `<`, so the first minimal
entry wins), returning the winning index and cell. -/
def pickBestAux (f : Cell → Option Nat) :
    List Cell → Nat → Nat × Cell × Option Nat → Nat × Cell × Option Nat
  | [], _, best => best
  | c :: rest, i, best =>
    if ltInf (f c) best.2.2 then pickBestAux f rest (i + 1) (i, c, f c)
    else pickBestAux f rest (i + 1) best

def pickBest (f : Cell → Option Nat) (c0 : Cell) (rest : List Cell) :
    Nat × Cell × Option Nat :=
  pickBestAux f rest 1 (0, c0, f c0)

/-- The source's swap-removal: `pop()` the last element and write it over the
removed index when that index is not the last. -/
def removeAtSwap (l : List Cell) (i : Nat) : List Cell :=
  match l.getLast? with
  | none => l
  | some last =>
    if i < l.dropLast.length then l.dropLast.set i last else l.dropLast

/-- Fuel that bounds every A* and flood-fill loop on the grid; sufficiency is
proven where a claim needs it. -/
def astarFuel (grid : GridBounds) : Nat := 5 * (grid.cellCount + 1) + 2

/-- `Pathfinding.reconstructPath`'s parent walk: prepend parents until a node
without a `cameFrom` entry (the start) is reached. The parent chain strictly
decreases `gScore`, so `astarFuel` bounds its length. -/
def reconstructPathAux (cameFrom : Cell → Option Cell) :
    Nat → Cell → List Cell → List Cell
  | 0, _, path => path
  | fuel + 1, current, path =>
    match cameFrom current with
    | none => path
    | some prev => reconstructPathAux cameFrom fuel prev (prev :: path)

/-- `Pathfinding.reconstructPath`: the chain from the root to `current`, with
the root (`start`) sliced off. -/
def reconstructPath (grid : GridBounds) (cameFrom : Cell → Option Cell)
    (current : Cell) : List Cell :=
  (reconstructPathAux cameFrom (astarFuel grid) current [current]).drop 1

/-- One neighbour relaxation of `findPath`: skip obstacle, out-of-bounds and
closed cells; on a strict `gScore` improvement rewrite `cameFrom`, `gScore`,
`fScore` and push the neighbour if it is not open. -/
def expandNeighbor (grid : GridBounds) (obstacleSet : List Cell) (e current : Cell)
    (s : AStarState) (neighbor : Cell) : AStarState :=
  if neighbor ∈ obstacleSet ∨ ¬ grid.inBounds neighbor ∨ neighbor ∈ s.closedSet then s
  else
    let tentativeG := (s.gScore current).map (· + 1)
    if ltInf tentativeG (s.gScore neighbor) then
      let s1 : AStarState :=
        { s with
          cameFrom := fun c => if c = neighbor then some current else s.cameFrom c
          gScore := fun c => if c = neighbor then tentativeG else s.gScore c
          fScore := fun c =>
            if c = neighbor then tentativeG.map (· + heuristic neighbor e)
            else s.fScore c }
      if neighbor ∈ s1.openSet then s1
      else { s1 with openSet := s1.openSet ++ [neighbor] }
    else s

/-- The main loop of `Pathfinding.findPath`. `some (some p)` is a found path,
`some none` the `return null` on open-set exhaustion, and `none` fuel
exhaustion (proven unreachable for `astarFuel`). -/
def findPathLoop (grid : GridBounds) (obstacleSet : List Cell) (e : Cell) :
    Nat → AStarState → Option (Option (List Cell))
  | 0, _ => none
  | fuel + 1, s =>
    match s.openSet with
    | [] => some none
    | c0 :: rest =>
      let best := pickBest s.fScore c0 rest
      let current := best.2.1
      let openSet' := removeAtSwap s.openSet best.1
      if current ∈ s.closedSet then
        findPathLoop grid obstacleSet e fuel { s with openSet := openSet' }
      else
        let s1 : AStarState := { s with openSet := openSet', closedSet := current :: s.closedSet }
        if current = e then some (some (reconstructPath grid s1.cameFrom current))
        else
          findPathLoop grid obstacleSet e fuel
            ((getNeighbors current).foldl (expandNeighbor grid obstacleSet e current) s1)

/-- `Pathfinding.findPath`: `start == end` gives the empty path; otherwise run
A* from the singleton open set. Fuel exhaustion maps to `null`; it is proven
unreachable at `astarFuel`. -/
def findPath (grid : GridBounds) (start e : Cell) (obstacles : List Cell) :
    Option (List Cell) :=
  if start.x = e.x ∧ start.z = e.z then some []
  else
    match findPathLoop grid obstacles e (astarFuel grid)
      { openSet := [start], closedSet := [],
        cameFrom := fun _ => none,
        gScore := fun c => if c = start then some 0 else none,
        fScore := fun c => if c = start then some (heuristic start e) else none } with
    | some r => r
    | none => none

/-- `Pathfinding.floodFill`'s loop: FIFO queue, a visited key set, and the
`count < cellCount` cap. Neighbours are pushed unfiltered by bounds (they are
skipped at pop time), but only when not yet visited. -/
def floodFillAux (grid : GridBounds) (obstacleSet : List Cell) :
    Nat → List Cell → List Cell → Nat → Nat
  | 0, _, _, count => count
  | fuel + 1, queue, visited, count =>
    if count < grid.cellCount then
      match queue with
      | [] => count
      | pos :: rest =>
        if pos ∈ visited ∨ pos ∈ obstacleSet ∨ ¬ grid.inBounds pos then
          floodFillAux grid obstacleSet fuel rest visited count
        else
          floodFillAux grid obstacleSet fuel
            (rest ++ (getNeighbors pos).filter (fun n => decide (n ∉ pos :: visited)))
            (pos :: visited) (count + 1)
    else count

/-- `Pathfinding.floodFill`. -/
def floodFill (grid : GridBounds) (start : Cell) (obstacles : List Cell) : Nat :=
  floodFillAux grid obstacles (astarFuel grid) [start] [] 0

/-- `AIController.getOpenNeighborCount`: in-bounds, non-obstacle neighbours. -/
def getOpenNeighborCount (grid : GridBounds) (pos : Cell) (obstacles : List Cell) : Nat :=
  ((getNeighbors pos).filter fun n => grid.inBounds n && decide (n ∉ obstacles)).length

/-- `AIController.normalizeFoodTargets`: `null`/`undefined` input gives `[]`;
a single target is wrapped into a one-element list by the caller of this
model; entries that are null or have non-finite coordinates are dropped.
A malformed entry is modelled as `none`. No deduplication, bounds check or
body check is performed. -/
def normalizeFoodTargets (foodPos : Option (List (Option Cell))) : List Cell :=
  (foodPos.getD []).filterMap id

/-- `AIController.isFoodCell`: componentwise membership of `pos` in the food
list. (The source re-normalizes its argument, which is the identity on the
already-normalized lists it receives.) -/
def isFoodCell (pos : Cell) (foods : List Cell) : Bool :=
  foods.any fun food => decide (food.x = pos.x) && decide (food.z = pos.z)

/-! ## AIController -/

/-- The `debugStats` record of `AIController`. -/
structure DebugStats where
  mode : String
  cycleAvailable : Bool
  shortcutsAccepted : Nat
  shortcutsRejected : Nat
  emergencyCount : Nat
  fallbackCount : Nat
  lastDecision : String
  lastSurvivalBuffer : Nat
  step : Nat
deriving DecidableEq, Repr

/-- The `AIController` instance state. `pathfinding` and `cycle` are derived
from `grid` (both are built from it in the constructor and never mutated). -/
structure AIController where
  grid : GridBounds
  difficulty : String
  bombPositions : List Cell
  stepCounter : Nat
  debugStats : DebugStats
deriving DecidableEq, Repr

/-- The `AIController` constructor. -/
def AIController.init (grid : GridBounds) (difficulty : String) : AIController :=
  ⟨grid, difficulty, [], 0,
    ⟨"cycle", (HamiltonianCycle.build grid).isValid, 0, 0, 0, 0, "init", 0, 0⟩⟩

/-- `this.cycle`, built once from the grid. -/
def AIController.cycle (ai : AIController) : HamiltonianCycle :=
  HamiltonianCycle.build ai.grid

/-- A `{dir, pos}` candidate record of `getValidMoves`. -/
structure Move where
  dir : Cell
  pos : Cell
deriving DecidableEq, Repr

/-- A scored move record (`{...move, score, reason, survivalBuffer, …}`).
Fields that only some policies attach (`foodGain`, `pathLength`) are options,
read back with the source's `?? 99` / `?? 0` defaults. Scores are exact
rationals standing for the source's floats (no claim depends on score
values). -/
structure ScoredMove where
  dir : Cell
  pos : Cell
  score : ℚ
  reason : String
  survivalBuffer : Nat
  foodGain : Option ℚ
  pathLength : Option Nat
deriving DecidableEq, Repr

/-- The direction enumeration order (up, down, left, right) shared by
`getValidMoves` and `getSafestMove`. -/
def dirList : List Cell := [⟨0, -1⟩, ⟨0, 1⟩, ⟨-1, 0⟩, ⟨1, 0⟩]

/-- `AIController.getValidMoves`: reject the reverse of a non-zero
`currentDir`, out-of-bounds cells, body segments at indices `1..length−2`,
and bomb cells. -/
def getValidMoves (grid : GridBounds) (bombPositions : List Cell)
    (head currentDir : Cell) (snake : List Cell) : List Move :=
  dirList.filterMap fun dir =>
    if currentDir.x = -dir.x ∧ currentDir.z = -dir.z ∧
        (currentDir.x ≠ 0 ∨ currentDir.z ≠ 0) then none
    else
      if ¬ grid.inBounds ⟨head.x + dir.x, head.z + dir.z⟩ then none
      else if (⟨head.x + dir.x, head.z + dir.z⟩ : Cell) ∈
          (snake.drop 1).dropLast ++ bombPositions then none
      else some ⟨dir, ⟨head.x + dir.x, head.z + dir.z⟩⟩

/-- `AIController.getCycleTailBuffer`: forward cycle distance from head index
to tail index; `0` when the cycle is invalid, the snake is shorter than 2, or
an index is missing. With both indices present the `distanceForward` value is
the non-negative `tmod`, taken here as a `Nat`. -/
def getCycleTailBuffer (ai : AIController) (snakeState : List Cell) : Nat :=
  if ¬ ai.cycle.isValid ∨ snakeState.length < 2 then 0
  else
    if ai.cycle.indexOf (snakeState.headD ⟨0, 0⟩) < 0 ∨
        ai.cycle.indexOf (snakeState.getLastD ⟨0, 0⟩) < 0 then 0
    else
      ((ai.cycle.indexOf (snakeState.getLastD ⟨0, 0⟩) -
          ai.cycle.indexOf (snakeState.headD ⟨0, 0⟩) +
          (ai.cycle.order.length : Int)).tmod (ai.cycle.order.length : Int)).toNat

/-- `AIController.validateCycleOrder`: the forward head→tail gap must exceed
`max(baseGap, ⌊length·0.08⌋)` (the float product is the exact `len·8/100`
floor here). -/
def validateCycleOrder (ai : AIController) (snakeState : List Cell)
    (growsThisStep : Bool) : Bool :=
  if ¬ ai.cycle.isValid then true
  else
    if ai.cycle.indexOf (snakeState.headD ⟨0, 0⟩) < 0 ∨
        ai.cycle.indexOf (snakeState.getLastD ⟨0, 0⟩) < 0 then false
    else
      decide (((ai.cycle.indexOf (snakeState.getLastD ⟨0, 0⟩) -
          ai.cycle.indexOf (snakeState.headD ⟨0, 0⟩) +
          (ai.cycle.order.length : Int)).tmod (ai.cycle.order.length : Int)) >
        ((max (if growsThisStep then 2 else 1) (snakeState.length * 8 / 100) : Nat) : Int))

/-- `AIController.hasEscapeRoute`: A* from the new head to the new tail with
the interior body plus bombs as obstacles. (JavaScript `!![]` is `true`, so
an empty found path counts as an escape, matching `Option.isSome`.) -/
def hasEscapeRoute (ai : AIController) (snakeState : List Cell) : Bool :=
  if snakeState.length < 2 then true
  else
    (findPath ai.grid (snakeState.headD ⟨0, 0⟩) (snakeState.getLastD ⟨0, 0⟩)
      ((snakeState.drop 1).dropLast ++ ai.bombPositions)).isSome

/-- `AIController.getClosestFoodDistance`: minimal Manhattan distance, `0`
when no foods. -/
def getClosestFoodDistance (pos : Cell) (foods : List Cell) : Nat :=
  if foods.isEmpty then 0
  else ((foods.map (manhattan pos)).min?).getD 0

/-- `AIController.scoreSurvivalState`:
`openSpace·6 + openNeighbors·55 + cycleBuffer·4 − nearestFood·3`. -/
def scoreSurvivalState (ai : AIController) (snakeState : List Cell)
    (foods : List Cell) : ℚ :=
  ((floodFill ai.grid (snakeState.headD ⟨0, 0⟩)
      ((snakeState.drop 1).dropLast ++ ai.bombPositions) : ℚ)) * 6 +
    ((getOpenNeighborCount ai.grid (snakeState.headD ⟨0, 0⟩)
      ((snakeState.drop 1).dropLast ++ ai.bombPositions) : ℚ)) * 55 +
    ((getCycleTailBuffer ai snakeState : ℚ)) * 4 -
    ((getClosestFoodDistance (snakeState.headD ⟨0, 0⟩) foods : ℚ)) * 3

/-- `if (!best || score > best.score) best = cand` — strict improvement keeps
the earlier candidate on ties. -/
def considerBest (best : Option ScoredMove) (cand : ScoredMove) : Option ScoredMove :=
  match best with
  | none => some cand
  | some b => if cand.score > b.score then some cand else some b

/-- One iteration body of `getDirectSafeFoodMove`'s loop: `none` when the
move is rejected. -/
def directFoodCandidate (ai : AIController) (snake foods : List Cell)
    (move : Move) : Option ScoredMove :=
  if ¬ isFoodCell move.pos foods then none
  else
    match simulateMove ai.grid ai.bombPositions snake move.pos true with
    | none => none
    | some result =>
      if ¬ validateCycleOrder ai result.1 true then none
      else if ¬ hasEscapeRoute ai result.1 then none
      else
        some ⟨move.dir, move.pos, scoreSurvivalState ai result.1 foods + 420,
          toString move.pos.x ++ "," ++ toString move.pos.z,
          getCycleTailBuffer ai result.1, some 99, none⟩

/-- `AIController.getDirectSafeFoodMove`. -/
def getDirectSafeFoodMove (ai : AIController) (moves : List Move)
    (snake foods : List Cell) : Option ScoredMove :=
  if foods.isEmpty then none
  else
    moves.foldl (fun best move =>
      match directFoodCandidate ai snake foods move with
      | none => best
      | some cand => considerBest best cand) none

/-- One iteration body of `getEarlyGameFoodChaseMove`'s loop over candidate
fruits. -/
def earlyChaseCandidate (ai : AIController) (head : Cell) (moves : List Move)
    (snake foods staticObstacles : List Cell) (target : Cell) : Option ScoredMove :=
  match findPath ai.grid head target staticObstacles with
  | none => none
  | some path =>
    if path.isEmpty then none
    else
      match moves.find? (fun item =>
          decide (item.pos.x = (path.headD ⟨0, 0⟩).x) &&
          decide (item.pos.z = (path.headD ⟨0, 0⟩).z)) with
      | none => none
      | some move =>
        match simulateMove ai.grid ai.bombPositions snake move.pos
            (isFoodCell move.pos foods) with
        | none => none
        | some result =>
          if ¬ hasEscapeRoute ai result.1 then none
          else
            some ⟨move.dir, move.pos,
              scoreSurvivalState ai result.1 foods + 300 +
                ((max 0 (14 - (path.length : Int)) : Int) : ℚ) * 22,
              toString target.x ++ "," ++ toString target.z,
              getCycleTailBuffer ai result.1,
              some ((max 1 (18 - (path.length : Int)) : Int) : ℚ), some path.length⟩

/-- `AIController.getEarlyGameFoodChaseMove`: only while `length ≤ 18`;
chase up to the 4 nearest fruits by Manhattan distance (stable sort). -/
def getEarlyGameFoodChaseMove (ai : AIController) (head : Cell) (moves : List Move)
    (snake foods : List Cell) : Option ScoredMove :=
  if foods.isEmpty then none
  else if snake.length > 18 then none
  else
    (((foods.mergeSort fun a b => decide (manhattan head a ≤ manhattan head b)).take 4).foldl
      (fun best target =>
        match earlyChaseCandidate ai head moves snake foods
            (snake.dropLast ++ ai.bombPositions) target with
        | none => best
        | some cand => considerBest best cand) none)

/-- `AIController.getCycleBaselineMove`: the cycle successor of `head`, when
it is a legal move and simulation succeeds; score `380 + buffer·1.2`. -/
def getCycleBaselineMove (ai : AIController) (head : Cell) (moves : List Move)
    (snake foods : List Cell) : Option ScoredMove :=
  match ai.cycle.getNextCell head with
  | none => none
  | some nextCycleCell =>
    match moves.find? (fun m =>
        decide (m.pos.x = nextCycleCell.x) && decide (m.pos.z = nextCycleCell.z)) with
    | none => none
    | some candidate =>
      match simulateMove ai.grid ai.bombPositions snake candidate.pos
          (isFoodCell candidate.pos foods) with
      | none => none
      | some result =>
        some ⟨candidate.dir, candidate.pos,
          380 + (getCycleTailBuffer ai result.1 : ℚ) * (6 / 5), "successor",
          getCycleTailBuffer ai result.1, none, none⟩

/-- `AIController.shouldPrioritizeShortcut` (called with a present shortcut
move; the `!shortcutMove` early-out is the callers' `match`). The float
`length·0.05` floor is the exact `length·5/100`. -/
def shouldPrioritizeShortcut (ai : AIController) (shortcutMove : ScoredMove)
    (cycleMove : Option ScoredMove) (snakeLength : Nat) : Bool :=
  if shortcutMove.survivalBuffer ≤ max 3 (snakeLength * 5 / 100) then false
  else
    match cycleMove with
    | none => true
    | some _ =>
      if (shortcutMove.pathLength.getD 99 ≤ if snakeLength < 70 then 8 else 6) ∨
          shortcutMove.foodGain.getD 0 ≥ 1 then true
      else
        decide (ai.stepCounter %
          (if snakeLength < 60 then 1 else if snakeLength < 140 then 2 else 3) = 0)

/-- `AIController.getShortcutTolerance`. -/
def getShortcutTolerance (snakeLength : Nat) : ℚ :=
  if snakeLength < 60 then 18 else if snakeLength < 140 then 12 else 8

/-- The per-step rejection tests of `validateShortcutPath` that run under
`cycle.isValid()`: missing indices, or a forward advance outside
`(0, max(1, tailWindow − (grows ? 3 : 2))]`. -/
def shortcutStepRejected (ai : AIController) (simulatedSnake : List Cell)
    (step : Cell) (grows : Bool) : Bool :=
  if ai.cycle.isValid then
    if ai.cycle.indexOf (simulatedSnake.headD ⟨0, 0⟩) < 0 ∨
        ai.cycle.indexOf (simulatedSnake.getLastD ⟨0, 0⟩) < 0 ∨
        ai.cycle.indexOf step < 0 then true
    else
      decide (((ai.cycle.indexOf step - ai.cycle.indexOf (simulatedSnake.headD ⟨0, 0⟩) +
            (ai.cycle.order.length : Int)).tmod (ai.cycle.order.length : Int)) ≤ 0 ∨
        ((ai.cycle.indexOf step - ai.cycle.indexOf (simulatedSnake.headD ⟨0, 0⟩) +
            (ai.cycle.order.length : Int)).tmod (ai.cycle.order.length : Int)) >
          max 1 (((ai.cycle.indexOf (simulatedSnake.getLastD ⟨0, 0⟩) -
              ai.cycle.indexOf (simulatedSnake.headD ⟨0, 0⟩) +
              (ai.cycle.order.length : Int)).tmod (ai.cycle.order.length : Int)) -
            (if grows then 3 else 2)))
  else false

/-- The step loop of `validateShortcutPath`: walk the path, simulating each
step, checking the cycle window, the cycle-order invariant and the buffer
floor `max(1, ⌊length·0.035⌋)` (exactly `length·35/1000`). Returns the final
simulated snake and buffer, or `none` on rejection. -/
def validateShortcutPathAux (ai : AIController) (target : Cell) :
    List Cell → List Cell → Nat → Option (List Cell × Nat)
  | [], simulatedSnake, latestBuffer => some (simulatedSnake, latestBuffer)
  | step :: rest, simulatedSnake, _ =>
    if shortcutStepRejected ai simulatedSnake step
        (rest.isEmpty && decide (step.x = target.x) && decide (step.z = target.z)) then none
    else
      match simulateMove ai.grid ai.bombPositions simulatedSnake step
          (rest.isEmpty && decide (step.x = target.x) && decide (step.z = target.z)) with
      | none => none
      | some result =>
        if ¬ validateCycleOrder ai result.1 result.2 then none
        else if getCycleTailBuffer ai result.1 ≤ max 1 (result.1.length * 35 / 1000) then none
        else validateShortcutPathAux ai target rest result.1 (getCycleTailBuffer ai result.1)

/-- `AIController.validateShortcutPath`: `none` models `{safe: false}`; the
`some` carries the final survival score and buffer. -/
def validateShortcutPath (ai : AIController) (path snake : List Cell)
    (target : Cell) (foods : List Cell) : Option (ℚ × Nat) :=
  match validateShortcutPathAux ai target path snake 0 with
  | none => none
  | some (finalSnake, latestBuffer) =>
    if ¬ hasEscapeRoute ai finalSnake then none
    else some (scoreSurvivalState ai finalSnake foods, latestBuffer)

/-- The `dynamicPathLimit` local of `getBestShortcutMove`: 34/28/22 by
length band. -/
def dynamicPathLimit (snakeLength : Nat) : Nat :=
  if snakeLength < 80 then 34 else if snakeLength < 180 then 28 else 22

/-- The `cycleDistance`/`foodGain` locals of `getBestShortcutMove`:
`max(0, cycle_distance(head→fruit) − path_length)`, where the cycle distance
falls back to the path length when an index is missing. `distanceForward` is
finite here because the caller checks `cycle.isValid()`. -/
def shortcutFoodGain (ai : AIController) (headIndex : Int) (target : Cell)
    (pathLength : Nat) : Int :=
  max 0 ((if headIndex ≥ 0 ∧ ai.cycle.indexOf target ≥ 0 then
      (ai.cycle.distanceForward headIndex (ai.cycle.indexOf target)).getD
        (pathLength : Int)
    else (pathLength : Int)) - (pathLength : Int))

/-- One candidate-fruit iteration of `getBestShortcutMove`. `none` is a plain
skip, `some none` a validation rejection (counted in `shortcutsRejected`),
`some (some m)` a scored candidate. -/
def shortcutCandidate (ai : AIController) (head : Cell) (moves : List Move)
    (snake foods staticObstacles : List Cell) (headIndex : Int) (target : Cell) :
    Option (Option ScoredMove) :=
  match findPath ai.grid head target staticObstacles with
  | none => none
  | some path =>
    if path.isEmpty then none
    else if path.length > dynamicPathLimit snake.length then none
    else
      match moves.find? (fun item =>
          decide (item.pos.x = (path.headD ⟨0, 0⟩).x) &&
          decide (item.pos.z = (path.headD ⟨0, 0⟩).z)) with
      | none => none
      | some move =>
        match validateShortcutPath ai path snake target foods with
        | none => some none
        | some validation =>
          some (some ⟨move.dir, move.pos,
            validation.1 + ((shortcutFoodGain ai headIndex target path.length : Int) : ℚ) * 34 +
              ((max 0 (220 - (path.length : Int) * 7) : Int) : ℚ),
            "to-food-" ++ toString target.x ++ "," ++ toString target.z,
            validation.2,
            some ((shortcutFoodGain ai headIndex target path.length : Int) : ℚ),
            some path.length⟩)

/-- `AIController.getBestShortcutMove`: length-gated cadence, nearest 3–4
fruits, dynamic path limit, full path validation. Also returns the number of
validation rejections (the source's in-place `shortcutsRejected` bumps). -/
def getBestShortcutMove (ai : AIController) (head : Cell) (moves : List Move)
    (snake foods : List Cell) : Option ScoredMove × Nat :=
  if foods.isEmpty then (none, 0)
  else if ai.stepCounter %
      (if snake.length < 90 then 1 else if snake.length < 180 then 2 else 3) ≠ 0 then
    (none, 0)
  else
    (((foods.mergeSort fun a b => decide (manhattan head a ≤ manhattan head b)).take
        (if foods.length > 8 then 4 else 3)).foldl
      (fun acc target =>
        match shortcutCandidate ai head moves snake foods
            (snake.dropLast ++ ai.bombPositions) (ai.cycle.indexOf head) target with
        | none => acc
        | some none => (acc.1, acc.2 + 1)
        | some (some cand) => (considerBest acc.1 cand, acc.2)) (none, 0))

/-- One iteration body of `getBestFallbackMove`'s loop. -/
def fallbackCandidate (ai : AIController) (snake foods : List Cell)
    (move : Move) : Option ScoredMove :=
  match simulateMove ai.grid ai.bombPositions snake move.pos
      (isFoodCell move.pos foods) with
  | none => none
  | some result =>
    some ⟨move.dir, move.pos, scoreSurvivalState ai result.1 foods, "max-space",
      getCycleTailBuffer ai result.1, none, none⟩

/-- `AIController.getBestFallbackMove`: the legal move maximizing the
survival score. -/
def getBestFallbackMove (ai : AIController) (moves : List Move)
    (snake foods : List Cell) : Option ScoredMove :=
  moves.foldl (fun best move =>
    match fallbackCandidate ai snake foods move with
    | none => best
    | some cand => considerBest best cand) none

/-- `AIController.getSafestMove` (the catch-path fallback): among non-reverse,
in-bounds, unoccupied neighbours, maximize flood fill; start from
`(currentDir, −1)`. -/
def getSafestMove (ai : AIController) (head currentDir : Cell)
    (obstacles : List Cell) : Cell :=
  (dirList.foldl (fun acc move =>
    if move.x = -currentDir.x ∧ move.z = -currentDir.z then acc
    else
      if ¬ ai.grid.inBounds ⟨head.x + move.x, head.z + move.z⟩ then acc
      else if isOccupied ⟨head.x + move.x, head.z + move.z⟩ obstacles then acc
      else
        if (floodFill ai.grid ⟨head.x + move.x, head.z + move.z⟩ obstacles : Int) > acc.2
        then (move, (floodFill ai.grid ⟨head.x + move.x, head.z + move.z⟩ obstacles : Int))
        else acc) ((currentDir, -1) : Cell × Int)).1

/-- The `cycleMove`/`shortcutMove` arbitration tail of `getNextDirection`:
Policy C, then Policy E, then the `default-first-move` guard. -/
def selectCycleOrFallback (ai : AIController) (moves : List Move)
    (snake foods : List Cell) (cycleMove : Option ScoredMove) : Cell × AIController :=
  match cycleMove with
  | some cm =>
    (cm.dir, { ai with debugStats := { ai.debugStats with
        mode := "cycle", lastDecision := "cycle:" ++ cm.reason,
        lastSurvivalBuffer := cm.survivalBuffer } })
  | none =>
    match getBestFallbackMove ai moves snake foods with
    | some fm =>
      (fm.dir, { ai with debugStats := { ai.debugStats with
          mode := "fallback", lastDecision := "fallback:" ++ fm.reason,
          fallbackCount := ai.debugStats.fallbackCount + 1,
          lastSurvivalBuffer := fm.survivalBuffer } })
    | none =>
      ((moves.headD ⟨⟨0, 0⟩, ⟨0, 0⟩⟩).dir,
        { ai with debugStats := { ai.debugStats with
            lastDecision := "default-first-move" } })

/-- The policy pipeline of `getNextDirection` after the legal-move check:
Policy A (direct-safe fruit), Policy B (early chase), then the C/D
arbitration and the E fallback (`selectCycleOrFallback`). -/
def dispatchPolicies (ai : AIController) (headPos : Cell)
    (occupiedCells foods : List Cell) (moves : List Move) : Cell × AIController :=
  match getDirectSafeFoodMove ai moves occupiedCells foods with
      | some m =>
        (m.dir, { ai with debugStats := { ai.debugStats with
            mode := "shortcut", lastDecision := "direct-food:" ++ m.reason,
            shortcutsAccepted := ai.debugStats.shortcutsAccepted + 1,
            lastSurvivalBuffer := m.survivalBuffer } })
      | none =>
        match getEarlyGameFoodChaseMove ai headPos moves occupiedCells foods with
        | some m =>
          (m.dir, { ai with debugStats := { ai.debugStats with
              mode := "shortcut", lastDecision := "early-chase:" ++ m.reason,
              shortcutsAccepted := ai.debugStats.shortcutsAccepted + 1,
              lastSurvivalBuffer := m.survivalBuffer } })
        | none =>
          let cycleMove := if ai.cycle.isValid then
            getCycleBaselineMove ai headPos moves occupiedCells foods else none
          let shortcutResult := if ai.cycle.isValid then
            getBestShortcutMove ai headPos moves occupiedCells foods else (none, 0)
          let ai : AIController :=
            { ai with debugStats := { ai.debugStats with
                shortcutsRejected := ai.debugStats.shortcutsRejected + shortcutResult.2 } }
          match shortcutResult.1 with
          | some sm =>
            if shouldPrioritizeShortcut ai sm cycleMove occupiedCells.length &&
                (match cycleMove with
                 | none => true
                 | some cm =>
                   decide (sm.score ≥ cm.score - getShortcutTolerance occupiedCells.length))
            then
              (sm.dir, { ai with debugStats := { ai.debugStats with
                  mode := "shortcut", lastDecision := "shortcut:" ++ sm.reason,
                  shortcutsAccepted := ai.debugStats.shortcutsAccepted + 1,
                  lastSurvivalBuffer := sm.survivalBuffer } })
            else selectCycleOrFallback ai moves occupiedCells foods cycleMove
          | none => selectCycleOrFallback ai moves occupiedCells foods cycleMove

/-- `AIController.getNextDirection` (the `try` body; the total embedding
cannot raise, so the `catch` path — `getSafestMove` — is analysed
separately). Input conventions: `headPos` is the `{gridX, gridZ}` head cell,
`occupiedCells` the body, `foodPos` the raw food input. Returns the direction
and the mutated controller state. -/
def getNextDirection (ai0 : AIController) (headPos currentDir : Cell)
    (occupiedCells : List Cell) (foodPos : Option (List (Option Cell))) :
    Cell × AIController :=
  let ai1 : AIController := { ai0 with stepCounter := ai0.stepCounter + 1 }
  let ai : AIController :=
    { ai1 with debugStats := { ai1.debugStats with step := ai1.stepCounter } }
  let foods := normalizeFoodTargets foodPos
  if occupiedCells.length = 0 then (currentDir, ai)
  else
    let moves := getValidMoves ai.grid ai.bombPositions headPos currentDir occupiedCells
    if moves.isEmpty then
      (currentDir,
        { ai with debugStats := { ai.debugStats with lastDecision := "no-legal-move" } })
    else dispatchPolicies ai headPos occupiedCells foods moves

/-- The finite set of in-bounds cells of a grid (specification device used to
state coverage and flood-fill claims; the source enumerates the same cells in
`GridBounds.forEachCell`). -/
def gridCellsFinset (g : GridBounds) : Finset Cell :=
  (Finset.range g.width ×ˢ Finset.range g.height).image
    fun p => ⟨g.minX + p.1, g.minZ + p.2⟩

/-- A concrete 2×2 grid used by concrete instances below. -/
def grid22 : GridBounds := ⟨2, 2, 0, 0⟩

/-- The Hamiltonian cycle built on the 2×2 grid. -/
def hc22 : HamiltonianCycle := HamiltonianCycle.build grid22

/-- A controller on the 2×2 grid with one bomb hazard at `⟨1,1⟩`
(`setBombDangerZones([{x:1,z:1}])`). -/
def aiCexC1 : AIController :=
  { AIController.init grid22 "normal" with bombPositions := [⟨1, 1⟩] }

/-- The controller state after only the step-counter bookkeeping of
`getNextDirection` (the state returned on an empty body). -/
def steppedController (ai0 : AIController) : AIController :=
  { grid := ai0.grid, difficulty := ai0.difficulty, bombPositions := ai0.bombPositions,
    stepCounter := ai0.stepCounter + 1,
    debugStats := { ai0.debugStats with step := ai0.stepCounter + 1 } }

/-- The controller state returned when no legal move exists. -/
def noLegalMoveController (ai0 : AIController) : AIController :=
  { steppedController ai0 with
    debugStats := { (steppedController ai0).debugStats with
      lastDecision := "no-legal-move" } }

/-! ## Path-correctness specification (C4/C10)

The claims about `findPath` quantify over walks on the grid; the predicates
below spell out what a valid walk is. -/

/-- Two cells are grid-adjacent: Manhattan distance one (one orthogonal
step). -/
def Adjacent (a b : Cell) : Prop := manhattan a b = 1

instance (a b : Cell) : Decidable (Adjacent a b) :=
  inferInstanceAs (Decidable (manhattan a b = 1))

/-- A cell a path may step on: in bounds and not an obstacle. -/
def OkCell (g : GridBounds) (obstacles : List Cell) (c : Cell) : Prop :=
  g.inBounds c = true ∧ c ∉ obstacles

instance (g : GridBounds) (obstacles : List Cell) (c : Cell) :
    Decidable (OkCell g obstacles c) :=
  inferInstanceAs (Decidable (_ ∧ _))

/-- `p` is a valid walk from `s` to `e`: successive cells (starting from `s`,
which is not itself part of `p`) are adjacent, every cell of `p` is passable,
and the walk ends at `e`. `findPath` never tests the start cell, so `s` is not
required passable. For `p = []` this forces `s = e`. -/
def ValidSeq (g : GridBounds) (obstacles : List Cell) (s e : Cell)
    (p : List Cell) : Prop :=
  List.Chain Adjacent s p ∧ (∀ c ∈ p, OkCell g obstacles c) ∧
    (s :: p).getLast? = some e

instance (g : GridBounds) (obstacles : List Cell) (s e : Cell) (p : List Cell) :
    Decidable (ValidSeq g obstacles s e p) :=
  inferInstanceAs (Decidable (_ ∧ _ ∧ _))

/-- `n` is the length of a shortest valid walk from `s` to `k`. -/
def ShortestDist (g : GridBounds) (obstacles : List Cell) (s k : Cell)
    (n : Nat) : Prop :=
  (∃ p, ValidSeq g obstacles s k p ∧ p.length = n) ∧
    ∀ q, ValidSeq g obstacles s k q → n ≤ q.length

/-- The invariant of `findPath`'s A* loop, for a search from `s` to `e`
(`s ≠ e`). It is strong enough to give soundness, completeness and minimality
of the returned path. -/
structure AInv (g : GridBounds) (obs : List Cell) (s e : Cell)
    (st : AStarState) : Prop where
  nodupOpen : st.openSet.Nodup
  nodupClosed : st.closedSet.Nodup
  openG : ∀ v ∈ st.openSet, ∃ gv, st.gScore v = some gv
  gMem : ∀ k gk, st.gScore k = some gk → k ∈ st.closedSet ∨ k ∈ st.openSet
  closedOpt : ∀ k ∈ st.closedSet,
    ∃ gk, st.gScore k = some gk ∧ ShortestDist g obs s k gk
  frontier : ∀ u ∈ st.closedSet, ∀ gu, st.gScore u = some gu →
    ∀ n, Adjacent u n → OkCell g obs n →
      n ∈ st.closedSet ∨
        (n ∈ st.openSet ∧ ∃ gn, st.gScore n = some gn ∧ gn ≤ gu + 1)
  startMem : s ∈ st.closedSet ∨ s ∈ st.openSet
  gStart : st.gScore s = some 0
  cfStart : st.cameFrom s = none
  parentClosed : ∀ k p, st.cameFrom k = some p → p ∈ st.closedSet
  chainStep : ∀ k p, st.cameFrom k = some p → Adjacent p k ∧ OkCell g obs k ∧
    ∃ gp, st.gScore p = some gp ∧ st.gScore k = some (gp + 1)
  chainDef : ∀ k gk, st.gScore k = some gk → k ≠ s → ∃ p, st.cameFrom k = some p
  fLink : ∀ k, st.fScore k = (st.gScore k).map (fun gk => gk + heuristic k e)
  closedOk : ∀ k ∈ st.closedSet, OkCell g obs k ∨ k = s
  openOk : ∀ k ∈ st.openSet, OkCell g obs k ∨ k = s
  gBound : ∀ k gk, st.gScore k = some gk → gk ≤ st.closedSet.length
  eNotClosed : e ∉ st.closedSet

/-- A neighbour of the just-closed cell `current` has been accounted for:
it is closed, or open with a `gScore` at most `gcur + 1`. -/
def NeighborDone (gcur : Nat) (st : AStarState) (n : Cell) : Prop :=
  n ∈ st.closedSet ∨
    (n ∈ st.openSet ∧ ∃ gn, st.gScore n = some gn ∧ gn ≤ gcur + 1)

/-- The invariant during the neighbour-expansion fold, after `current` (an
open cell of minimal `fScore`, with `gScore` `gcur`) has been moved to the
closed set: all of `AInv` except that the frontier property is only known for
the previously closed cells. -/
structure MidInv (g : GridBounds) (obs : List Cell) (s e current : Cell)
    (gcur : Nat) (st : AStarState) : Prop where
  nodupOpen : st.openSet.Nodup
  nodupClosed : st.closedSet.Nodup
  openG : ∀ v ∈ st.openSet, ∃ gv, st.gScore v = some gv
  gMem : ∀ k gk, st.gScore k = some gk → k ∈ st.closedSet ∨ k ∈ st.openSet
  closedOpt : ∀ k ∈ st.closedSet,
    ∃ gk, st.gScore k = some gk ∧ ShortestDist g obs s k gk
  frontierOld : ∀ u ∈ st.closedSet, u ≠ current → ∀ gu, st.gScore u = some gu →
    ∀ m, Adjacent u m → OkCell g obs m →
      m ∈ st.closedSet ∨
        (m ∈ st.openSet ∧ ∃ gm, st.gScore m = some gm ∧ gm ≤ gu + 1)
  startMem : s ∈ st.closedSet ∨ s ∈ st.openSet
  gStart : st.gScore s = some 0
  cfStart : st.cameFrom s = none
  parentClosed : ∀ k p, st.cameFrom k = some p → p ∈ st.closedSet
  chainStep : ∀ k p, st.cameFrom k = some p → Adjacent p k ∧ OkCell g obs k ∧
    ∃ gp, st.gScore p = some gp ∧ st.gScore k = some (gp + 1)
  chainDef : ∀ k gk, st.gScore k = some gk → k ≠ s → ∃ p, st.cameFrom k = some p
  fLink : ∀ k, st.fScore k = (st.gScore k).map (fun gk => gk + heuristic k e)
  closedOk : ∀ k ∈ st.closedSet, OkCell g obs k ∨ k = s
  openOk : ∀ k ∈ st.openSet, OkCell g obs k ∨ k = s
  gBound : ∀ k gk, st.gScore k = some gk → gk ≤ st.closedSet.length
  eNotClosed : e ∉ st.closedSet
  curClosed : current ∈ st.closedSet
  gCur : st.gScore current = some gcur
  gCurBound : gcur + 1 ≤ st.closedSet.length

/-! ## Theorems -/

theorem Cell.eq_iff {a b : Cell} : a = b ↔ a.x = b.x ∧ a.z = b.z := by
  cases a; cases b; simp

theorem isOccupied_iff (pos : Cell) (obstacles : List Cell) :
    isOccupied pos obstacles = true ↔ pos ∈ obstacles := by
  simp only [isOccupied, List.any_eq_true, Bool.and_eq_true, decide_eq_true_eq]
  constructor
  · rintro ⟨o, ho, hx, hz⟩
    have : o = pos := Cell.eq_iff.mpr ⟨hx, hz⟩
    exact this ▸ ho
  · intro h
    exact ⟨pos, h, rfl, rfl⟩

theorem selfCollision_iff (snake : List Cell) (nextPos : Cell) (grows : Bool) :
    ((List.range' 1 (snake.length - 1)).any (fun i =>
      !(decide (i = snake.length - 1) && !grows) && decide (snake.getD i ⟨0, 0⟩ = nextPos))
      = true) ↔
    ∃ i ∈ Finset.Ico 1 snake.length,
      (grows = true ∨ i ≠ snake.length - 1) ∧ snake.getD i ⟨0, 0⟩ = nextPos := by
  simp only [List.any_eq_true, List.mem_range'_1, Finset.mem_Ico, Bool.and_eq_true,
    Bool.not_eq_true', Bool.and_eq_false_iff, decide_eq_true_eq, decide_eq_false_iff_not,
    Bool.not_eq_true]
  constructor
  · rintro ⟨i, ⟨h1, h2⟩, hcond, heq⟩
    refine ⟨i, ⟨h1, by omega⟩, ?_, heq⟩
    rcases hcond with h | h
    · exact Or.inr h
    · exact Or.inl (by
        cases grows with
        | false => simp at h
        | true => rfl)
  · rintro ⟨i, ⟨h1, h2⟩, hcond, heq⟩
    refine ⟨i, ⟨h1, by omega⟩, ?_, heq⟩
    rcases hcond with h | h
    · subst h; right; simp
    · exact Or.inl h

/-- C3: `simulateMove` returns `none` exactly when the candidate cell is out
of bounds, lies in the hazard set, or equals a body segment at an index
`i ≥ 1` other than the non-growing tail; otherwise it returns the candidate
prepended to the body, dropping the last segment when not growing. -/
theorem C3_simulateMove_characterization (grid : GridBounds) (bombPositions : List Cell)
    (snake : List Cell) (nextPos : Cell) (grows : Bool) :
    simulateMove grid bombPositions snake nextPos grows =
      if ¬ grid.inBounds nextPos ∨ nextPos ∈ bombPositions ∨
          ∃ i ∈ Finset.Ico 1 snake.length,
            (grows = true ∨ i ≠ snake.length - 1) ∧ snake.getD i ⟨0, 0⟩ = nextPos
      then none
      else some ((if grows then nextPos :: snake else (nextPos :: snake).dropLast), grows) := by
  unfold simulateMove
  by_cases hA : grid.inBounds nextPos
  · simp only [hA, not_true_eq_false, if_false, false_or]
    by_cases hS : ∃ i ∈ Finset.Ico 1 snake.length,
        (grows = true ∨ i ≠ snake.length - 1) ∧ snake.getD i ⟨0, 0⟩ = nextPos
    · rw [if_pos ((selfCollision_iff snake nextPos grows).mpr hS)]
      rw [if_pos (Or.inr hS)]
    · rw [if_neg (fun h => hS ((selfCollision_iff snake nextPos grows).mp h))]
      by_cases hO : nextPos ∈ bombPositions
      · rw [if_pos ((isOccupied_iff nextPos bombPositions).mpr hO), if_pos (Or.inl hO)]
      · rw [if_neg (fun h => hO ((isOccupied_iff nextPos bombPositions).mp h))]
        rw [if_neg (show ¬ (nextPos ∈ bombPositions ∨
            ∃ i ∈ Finset.Ico 1 snake.length,
              (grows = true ∨ i ≠ snake.length - 1) ∧ snake.getD i ⟨0, 0⟩ = nextPos) from by
          rintro (h | h)
          · exact hO h
          · exact hS h)]
  · simp [hA]

theorem buildCycle_some (g : GridBounds) (o : List Cell) (h : buildCycle g = some o) :
    2 ≤ g.width ∧ 2 ≤ g.height ∧ o.length = g.width * g.height ∧ o.Nodup ∧
      cycleAdjacent o = true ∧
      o = (localCycleOrder g).map g.fromLocal := by
  unfold buildCycle at h
  split_ifs at h with h1 h2 h3 h4 h5
  injection h with h
  subst h
  refine ⟨by omega, by omega, ?_, by simpa using h4, by simpa using h5, rfl⟩
  rw [List.length_map]
  omega

theorem build_valid_buildCycle (g : GridBounds)
    (h : (HamiltonianCycle.build g).valid = true) :
    buildCycle g = some (HamiltonianCycle.build g).order := by
  unfold HamiltonianCycle.build at *
  cases heq : buildCycle g with
  | none => rw [heq] at h; simp at h
  | some o => simp [heq]

theorem build_order_length_pos (g : GridBounds)
    (h : (HamiltonianCycle.build g).valid = true) :
    0 < (HamiltonianCycle.build g).order.length := by
  obtain ⟨hw, hh, hlen, -⟩ := buildCycle_some g _ (build_valid_buildCycle g h)
  rw [hlen]
  exact Nat.mul_pos (by omega) (by omega)

/-- C7 counterexample: on the valid 2×2 cycle (length 4),
`distanceForward 5 0` returns `−1`, which is negative and differs from the
mathematical value `(0 − 5) mod 4 = 3`; the claim fails for indices outside
`[0, length)`. -/
theorem C7_distanceForward_counterexample :
    hc22.order.length = 4 ∧
    hc22.distanceForward 5 0 = some (-1) ∧
    ((0 : Int) - 5) % 4 = 3 ∧ ¬ (0 : Int) ≤ -1 := by
  refine ⟨by decide, by decide, by decide, by decide⟩

/-- C7 amended: on a valid cycle, whenever
`−length ≤ to_idx − from_idx` (in particular for indices in `[0, length)`),
`distanceForward` equals the mathematical `(to_idx − from_idx) mod length`
and is non-negative; `distanceForward i i = 0` holds for every integer `i`. -/
theorem C7_distanceForward_amended (g : GridBounds) (fromIndex toIndex : Int)
    (hvalid : (HamiltonianCycle.build g).valid = true)
    (hrange : -((HamiltonianCycle.build g).order.length : Int) ≤ toIndex - fromIndex) :
    (HamiltonianCycle.build g).distanceForward fromIndex toIndex =
      some ((toIndex - fromIndex) % ((HamiltonianCycle.build g).order.length : Int)) ∧
    (0 : Int) ≤ (toIndex - fromIndex) % ((HamiltonianCycle.build g).order.length : Int) ∧
    (HamiltonianCycle.build g).distanceForward fromIndex fromIndex = some 0 := by
  have hpos := build_order_length_pos g hvalid
  set hc := HamiltonianCycle.build g with hhc
  have hlenpos : (0 : Int) < (hc.order.length : Int) := by exact_mod_cast hpos
  have hne : hc.order.length ≠ 0 := by omega
  unfold HamiltonianCycle.distanceForward
  rw [if_neg (by simp [hvalid, hne]), if_neg (by simp [hvalid, hne])]
  refine ⟨?_, Int.emod_nonneg _ (by omega), ?_⟩
  · have h0 : 0 ≤ toIndex - fromIndex + (hc.order.length : Int) := by omega
    rw [Int.tmod_eq_emod h0 (by omega)]
    congr 1
    have := Int.add_mul_emod_self_left (toIndex - fromIndex) (hc.order.length : Int) 1
    simpa using this
  · simp only [sub_self, zero_add]
    rw [Int.tmod_eq_emod (by omega) (by omega)]
    simp [Int.emod_self]

/-- Witness for `C7_distanceForward_amended` at the 2×2 grid with indices 1, 3. -/
theorem C7_distanceForward_amended_witness :
    ((HamiltonianCycle.build grid22).valid = true ∧
      -(((HamiltonianCycle.build grid22).order.length : Int)) ≤ 3 - 1) ∧
    (HamiltonianCycle.build grid22).distanceForward 1 3 =
      some ((3 - 1) % ((HamiltonianCycle.build grid22).order.length : Int)) ∧
    (0 : Int) ≤ (3 - 1) % ((HamiltonianCycle.build grid22).order.length : Int) ∧
    (HamiltonianCycle.build grid22).distanceForward 1 1 = some 0 :=
  ⟨⟨by decide, by decide⟩, C7_distanceForward_amended grid22 1 3 (by decide) (by decide)⟩

theorem mem_gridCellsFinset (g : GridBounds) (c : Cell) :
    c ∈ gridCellsFinset g ↔ g.inBounds c = true := by
  simp only [gridCellsFinset, Finset.mem_image, Finset.mem_product, Finset.mem_range,
    GridBounds.inBounds, GridBounds.maxX, GridBounds.maxZ, Bool.and_eq_true,
    decide_eq_true_eq]
  constructor
  · rintro ⟨⟨a, b⟩, ⟨ha, hb⟩, rfl⟩
    simp only at ha hb
    dsimp only
    omega
  · rintro ⟨⟨⟨h1, h2⟩, h3⟩, h4⟩
    refine ⟨⟨(c.x - g.minX).toNat, (c.z - g.minZ).toNat⟩, ⟨by omega, by omega⟩, ?_⟩
    rw [Cell.eq_iff]
    dsimp only
    constructor <;> omega

theorem card_gridCellsFinset (g : GridBounds) :
    (gridCellsFinset g).card = g.width * g.height := by
  rw [gridCellsFinset, Finset.card_image_of_injOn, Finset.card_product,
    Finset.card_range, Finset.card_range]
  rintro ⟨a, b⟩ - ⟨a', b'⟩ - hab
  rw [Cell.eq_iff] at hab
  simp only at hab
  have : a = a' ∧ b = b' := by omega
  simp [this.1, this.2]

theorem mem_buildCycleEvenWidth (w h : Nat) (hw : 2 ≤ w) (hh : 1 ≤ h) (c : Cell)
    (hc : c ∈ buildCycleEvenWidth w h) :
    0 ≤ c.x ∧ c.x < w ∧ 0 ≤ c.z ∧ c.z < h := by
  unfold buildCycleEvenWidth at hc
  rcases List.mem_append.mp hc with hc | hc
  · rcases List.mem_append.mp hc with hc | hc
    · rcases List.mem_cons.mp hc with rfl | hc
      · dsimp only; omega
      · obtain ⟨x, hx, rfl⟩ := List.mem_map.mp hc
        rw [List.mem_range'_1] at hx
        dsimp only; omega
    · obtain ⟨row, hrow, hcrow⟩ := List.mem_flatten.mp hc
      obtain ⟨z, hz, rfl⟩ := List.mem_map.mp hrow
      rw [List.mem_range'_1] at hz
      by_cases hodd : z % 2 = 1
      · rw [if_pos hodd] at hcrow
        rcases List.mem_cons.mp hcrow with rfl | hcrow
        · dsimp only; omega
        · obtain ⟨x, hx, rfl⟩ := List.mem_map.mp hcrow
          rw [List.mem_reverse, List.mem_range'_1] at hx
          dsimp only; omega
      · rw [if_neg hodd] at hcrow
        rcases List.mem_cons.mp hcrow with rfl | hcrow
        · dsimp only; omega
        · obtain ⟨x, hx, rfl⟩ := List.mem_map.mp hcrow
          rw [List.mem_range'_1] at hx
          dsimp only; omega
  · obtain ⟨z, hz, rfl⟩ := List.mem_map.mp hc
    rw [List.mem_reverse, List.mem_range'_1] at hz
    dsimp only; omega

theorem mem_buildCycleEvenHeight (w h : Nat) (hw : 1 ≤ w) (hh : 2 ≤ h) (c : Cell)
    (hc : c ∈ buildCycleEvenHeight w h) :
    0 ≤ c.x ∧ c.x < w ∧ 0 ≤ c.z ∧ c.z < h := by
  unfold buildCycleEvenHeight at hc
  rcases List.mem_append.mp hc with hc | hc
  · rcases List.mem_append.mp hc with hc | hc
    · rcases List.mem_cons.mp hc with rfl | hc
      · dsimp only; omega
      · obtain ⟨z, hz, rfl⟩ := List.mem_map.mp hc
        rw [List.mem_range'_1] at hz
        dsimp only; omega
    · obtain ⟨col, hcol, hccol⟩ := List.mem_flatten.mp hc
      obtain ⟨x, hx, rfl⟩ := List.mem_map.mp hcol
      rw [List.mem_range'_1] at hx
      by_cases hodd : x % 2 = 1
      · rw [if_pos hodd] at hccol
        rcases List.mem_cons.mp hccol with rfl | hccol
        · dsimp only; omega
        · obtain ⟨z, hz, rfl⟩ := List.mem_map.mp hccol
          rw [List.mem_reverse, List.mem_range'_1] at hz
          dsimp only; omega
      · rw [if_neg hodd] at hccol
        rcases List.mem_cons.mp hccol with rfl | hccol
        · dsimp only; omega
        · obtain ⟨z, hz, rfl⟩ := List.mem_map.mp hccol
          rw [List.mem_range'_1] at hz
          dsimp only; omega
  · obtain ⟨x, hx, rfl⟩ := List.mem_map.mp hc
    rw [List.mem_reverse, List.mem_range'_1] at hx
    dsimp only; omega

theorem mem_localCycleOrder (g : GridBounds) (hw : 2 ≤ g.width) (hh : 2 ≤ g.height)
    (c : Cell) (hc : c ∈ localCycleOrder g) :
    0 ≤ c.x ∧ c.x < g.width ∧ 0 ≤ c.z ∧ c.z < g.height := by
  unfold localCycleOrder at hc
  split_ifs at hc
  · exact mem_buildCycleEvenWidth g.width g.height hw (by omega) c hc
  · exact mem_buildCycleEvenHeight g.width g.height (by omega) hh c hc

theorem build_order_inBounds (g : GridBounds)
    (hv : (HamiltonianCycle.build g).valid = true) (c : Cell)
    (hc : c ∈ (HamiltonianCycle.build g).order) : g.inBounds c = true := by
  obtain ⟨hw, hh, hlen, hnodup, hadj, heq⟩ :=
    buildCycle_some g _ (build_valid_buildCycle g hv)
  rw [heq] at hc
  obtain ⟨lc, hlc, rfl⟩ := List.mem_map.mp hc
  obtain ⟨h1, h2, h3, h4⟩ := mem_localCycleOrder g (by omega) (by omega) lc hlc
  simp only [GridBounds.fromLocal, GridBounds.inBounds, GridBounds.maxX,
    GridBounds.maxZ, Bool.and_eq_true, decide_eq_true_eq]
  refine ⟨⟨⟨by omega, by omega⟩, by omega⟩, by omega⟩

/-- C2: whenever the built cycle is valid, its order has length
`width·height`, contains every in-bounds cell exactly once (and no other
cell), and every consecutive pair — including the wrap from the last cell to
the first — is Manhattan-adjacent at distance 1. -/
theorem C2_cycle_coverage (g : GridBounds)
    (hv : (HamiltonianCycle.build g).valid = true) :
    (HamiltonianCycle.build g).order.length = g.width * g.height ∧
    (∀ c : Cell, (HamiltonianCycle.build g).order.count c =
      if g.inBounds c then 1 else 0) ∧
    (∀ i, i < (HamiltonianCycle.build g).order.length →
      manhattan ((HamiltonianCycle.build g).order.getD i ⟨0, 0⟩)
        ((HamiltonianCycle.build g).order.getD
          ((i + 1) % (HamiltonianCycle.build g).order.length) ⟨0, 0⟩) = 1) := by
  obtain ⟨hw, hh, hlen, hnodup, hadj, heq⟩ :=
    buildCycle_some g _ (build_valid_buildCycle g hv)
  refine ⟨hlen, ?_, ?_⟩
  · intro c
    by_cases hb : g.inBounds c
    · rw [if_pos hb]
      have hsub : (HamiltonianCycle.build g).order.toFinset ⊆ gridCellsFinset g := by
        intro x hx
        rw [List.mem_toFinset] at hx
        exact (mem_gridCellsFinset g x).mpr (build_order_inBounds g hv x hx)
      have hcard : (gridCellsFinset g).card ≤
          (HamiltonianCycle.build g).order.toFinset.card := by
        rw [List.toFinset_card_of_nodup hnodup, hlen, card_gridCellsFinset]
      have := Finset.eq_of_subset_of_card_le hsub hcard
      have hmem : c ∈ (HamiltonianCycle.build g).order := by
        rw [← List.mem_toFinset, this]
        exact (mem_gridCellsFinset g c).mpr hb
      exact List.count_eq_one_of_mem hnodup hmem
    · rw [if_neg hb, List.count_eq_zero]
      intro hmem
      exact hb (build_order_inBounds g hv c hmem)
  · intro i hi
    unfold cycleAdjacent at hadj
    rw [List.all_eq_true] at hadj
    have := hadj i (List.mem_range.mpr hi)
    exact decide_eq_true_eq.mp this

/-- Witness for `C2_cycle_coverage` at the 2×2 grid (valid cycle). -/
theorem C2_cycle_coverage_witness :
    (HamiltonianCycle.build grid22).valid = true ∧
    (HamiltonianCycle.build grid22).order.length = grid22.width * grid22.height :=
  ⟨by decide, (C2_cycle_coverage grid22 (by decide)).1⟩

/-- C8 counterexample: `normalizeFoodTargets` keeps duplicates, keeps a cell
far outside the 2×2 grid, and keeps a cell coinciding with a snake body
(here `⟨0,0⟩` with body `[⟨0,0⟩]`), so the considered targets are not the
deduplicated, bounds- and body-filtered set the claim describes. -/
theorem C8_foods_counterexample :
    normalizeFoodTargets (some [some ⟨0, 0⟩, some ⟨0, 0⟩, some ⟨5, 7⟩]) =
      [⟨0, 0⟩, ⟨0, 0⟩, ⟨5, 7⟩] ∧
    ¬ (normalizeFoodTargets (some [some ⟨0, 0⟩, some ⟨0, 0⟩, some ⟨5, 7⟩])).Nodup ∧
    (⟨5, 7⟩ : Cell) ∈ normalizeFoodTargets (some [some ⟨0, 0⟩, some ⟨0, 0⟩, some ⟨5, 7⟩]) ∧
    grid22.inBounds ⟨5, 7⟩ = false ∧
    (⟨0, 0⟩ : Cell) ∈ normalizeFoodTargets (some [some ⟨0, 0⟩, some ⟨0, 0⟩, some ⟨5, 7⟩]) ∧
    (⟨0, 0⟩ : Cell) ∈ ([⟨0, 0⟩] : List Cell) ∧
    isFoodCell ⟨5, 7⟩ (normalizeFoodTargets (some [some ⟨0, 0⟩, some ⟨0, 0⟩, some ⟨5, 7⟩]))
      = true := by
  refine ⟨by decide, by decide, by decide, by decide, by decide, by decide, by decide⟩

/-- C8 amended: the fruit list the policies consider is the input with only
null/non-finite entries removed — a cell is considered iff it occurs in the
input; duplicates, out-of-bounds cells and body-coinciding cells are
retained. Membership tests (`isFoodCell`) treat the list as a set, so
duplicates are ignored there. -/
theorem C8_normalizeFoodTargets_amended (foodPos : Option (List (Option Cell)))
    (c : Cell) (foods : List Cell) (pos : Cell) :
    (c ∈ normalizeFoodTargets foodPos ↔ some c ∈ foodPos.getD []) ∧
    (isFoodCell pos foods = true ↔ pos ∈ foods) := by
  constructor
  · rw [normalizeFoodTargets, List.mem_filterMap]
    constructor
    · rintro ⟨a, ha, haeq⟩
      have : a = some c := haeq
      exact this ▸ ha
    · intro hmem
      exact ⟨some c, hmem, rfl⟩
  · rw [isFoodCell]
    simp only [List.any_eq_true, Bool.and_eq_true, decide_eq_true_eq]
    constructor
    · rintro ⟨f, hf, hx, hz⟩
      have : f = pos := Cell.eq_iff.mpr ⟨hx, hz⟩
      exact this ▸ hf
    · intro hmem
      exact ⟨pos, hmem, rfl, rfl⟩

/-! ### Decision-pipeline lemmas -/

theorem considerBest_eq_some {best : Option ScoredMove} {cand r : ScoredMove}
    (h : considerBest best cand = some r) : best = some r ∨ r = cand := by
  cases best with
  | none =>
    right
    have hc : some cand = some r := h
    exact (Option.some.inj hc).symm
  | some b =>
    simp only [considerBest] at h
    split_ifs at h
    · right; exact (Option.some.inj h).symm
    · left; exact h

theorem foldl_considerBest_eq_some {β : Type} (g : β → Option ScoredMove)
    (l : List β) (acc : Option ScoredMove) (r : ScoredMove)
    (h : l.foldl (fun best b =>
        match g b with
        | none => best
        | some c => considerBest best c) acc = some r) :
    acc = some r ∨ ∃ b ∈ l, g b = some r := by
  induction l generalizing acc with
  | nil => exact Or.inl h
  | cons b tl ih =>
    rcases ih _ h with hacc | ⟨b', hb', hg⟩
    · cases hgb : g b with
      | none =>
        simp only [hgb] at hacc
        exact Or.inl hacc
      | some c =>
        simp only [hgb] at hacc
        rcases considerBest_eq_some hacc with hl | hr
        · exact Or.inl hl
        · exact Or.inr ⟨b, List.mem_cons_self b tl, hr ▸ hgb⟩
    · exact Or.inr ⟨b', List.mem_cons_of_mem b hb', hg⟩

theorem foldl_considerBest_pair_eq_some {β : Type}
    (g : β → Option (Option ScoredMove)) (l : List β)
    (acc : Option ScoredMove × Nat) (r : ScoredMove)
    (h : (l.foldl (fun acc b =>
        match g b with
        | none => acc
        | some none => (acc.1, acc.2 + 1)
        | some (some c) => (considerBest acc.1 c, acc.2)) acc).1 = some r) :
    acc.1 = some r ∨ ∃ b ∈ l, g b = some (some r) := by
  induction l generalizing acc with
  | nil => exact Or.inl h
  | cons b tl ih =>
    rcases ih _ h with hacc | ⟨b', hb', hg⟩
    · cases hgb : g b with
      | none =>
        simp only [hgb] at hacc
        exact Or.inl hacc
      | some o =>
        cases o with
        | none =>
          simp only [hgb] at hacc
          exact Or.inl hacc
        | some c =>
          simp only [hgb] at hacc
          rcases considerBest_eq_some hacc with hl | hr
          · exact Or.inl hl
          · exact Or.inr ⟨b, List.mem_cons_self b tl, hr ▸ hgb⟩
    · exact Or.inr ⟨b', List.mem_cons_of_mem b hb', hg⟩

theorem getValidMoves_mem {grid : GridBounds} {bombPositions : List Cell}
    {head currentDir : Cell} {snake : List Cell} {m : Move}
    (h : m ∈ getValidMoves grid bombPositions head currentDir snake) :
    m.dir ∈ dirList ∧ m.pos = ⟨head.x + m.dir.x, head.z + m.dir.z⟩ ∧
    grid.inBounds m.pos = true ∧
    m.pos ∉ (snake.drop 1).dropLast ∧ m.pos ∉ bombPositions ∧
    ¬ (currentDir.x = -m.dir.x ∧ currentDir.z = -m.dir.z ∧
        (currentDir.x ≠ 0 ∨ currentDir.z ≠ 0)) := by
  unfold getValidMoves at h
  obtain ⟨dir, hdir, hf⟩ := List.mem_filterMap.mp h
  split_ifs at hf with h1 h2 h3
  injection hf with hf
  subst hf
  rw [List.mem_append] at h3
  push_neg at h3
  exact ⟨hdir, rfl, by simpa using h2, h3.1, h3.2, h1⟩

theorem getValidMoves_complete {grid : GridBounds} {bombPositions : List Cell}
    {head currentDir dir : Cell} {snake : List Cell}
    (hdir : dir ∈ dirList)
    (hrev : ¬ (currentDir.x = -dir.x ∧ currentDir.z = -dir.z ∧
        (currentDir.x ≠ 0 ∨ currentDir.z ≠ 0)))
    (hin : grid.inBounds ⟨head.x + dir.x, head.z + dir.z⟩ = true)
    (hblock : (⟨head.x + dir.x, head.z + dir.z⟩ : Cell) ∉
        (snake.drop 1).dropLast ++ bombPositions) :
    (⟨dir, ⟨head.x + dir.x, head.z + dir.z⟩⟩ : Move) ∈
      getValidMoves grid bombPositions head currentDir snake := by
  unfold getValidMoves
  refine List.mem_filterMap.mpr ⟨dir, hdir, ?_⟩
  rw [if_neg hrev, if_neg (by simp [hin]), if_neg hblock]

theorem directFoodCandidate_dir_pos {ai : AIController} {snake foods : List Cell}
    {move : Move} {r : ScoredMove}
    (h : directFoodCandidate ai snake foods move = some r) :
    r.dir = move.dir ∧ r.pos = move.pos := by
  unfold directFoodCandidate at h
  split_ifs at h
  cases hsim : simulateMove ai.grid ai.bombPositions snake move.pos true with
  | none => rw [hsim] at h; simp at h
  | some result =>
    rw [hsim] at h
    dsimp only at h
    split_ifs at h
    injection h with h
    subst h
    exact ⟨rfl, rfl⟩

theorem getDirectSafeFoodMove_mem {ai : AIController} {moves : List Move}
    {snake foods : List Cell} {r : ScoredMove}
    (h : getDirectSafeFoodMove ai moves snake foods = some r) :
    (⟨r.dir, r.pos⟩ : Move) ∈ moves := by
  unfold getDirectSafeFoodMove at h
  split_ifs at h
  rcases foldl_considerBest_eq_some _ _ _ _ h with hacc | ⟨move, hmove, hg⟩
  · exact absurd hacc (by simp)
  · obtain ⟨h1, h2⟩ := directFoodCandidate_dir_pos hg
    rw [h1, h2]
    cases move
    exact hmove

theorem earlyChaseCandidate_mem {ai : AIController} {head : Cell} {moves : List Move}
    {snake foods staticObstacles : List Cell} {target : Cell} {r : ScoredMove}
    (h : earlyChaseCandidate ai head moves snake foods staticObstacles target = some r) :
    (⟨r.dir, r.pos⟩ : Move) ∈ moves := by
  unfold earlyChaseCandidate at h
  cases hp : findPath ai.grid head target staticObstacles with
  | none => rw [hp] at h; simp at h
  | some path =>
    rw [hp] at h
    dsimp only at h
    split_ifs at h
    cases hf : moves.find? (fun item =>
        decide (item.pos.x = (path.headD ⟨0, 0⟩).x) &&
        decide (item.pos.z = (path.headD ⟨0, 0⟩).z)) with
    | none => rw [hf] at h; simp at h
    | some move =>
      rw [hf] at h
      dsimp only at h
      cases hsim : simulateMove ai.grid ai.bombPositions snake move.pos
          (isFoodCell move.pos foods) with
      | none => rw [hsim] at h; simp at h
      | some result =>
        rw [hsim] at h
        dsimp only at h
        split_ifs at h
        injection h with h
        subst h
        have := List.mem_of_find?_eq_some hf
        cases move
        exact this

theorem getEarlyGameFoodChaseMove_mem {ai : AIController} {head : Cell}
    {moves : List Move} {snake foods : List Cell} {r : ScoredMove}
    (h : getEarlyGameFoodChaseMove ai head moves snake foods = some r) :
    (⟨r.dir, r.pos⟩ : Move) ∈ moves := by
  unfold getEarlyGameFoodChaseMove at h
  split_ifs at h
  rcases foldl_considerBest_eq_some _ _ _ _ h with hacc | ⟨target, htarget, hg⟩
  · exact absurd hacc (by simp)
  · exact earlyChaseCandidate_mem hg

theorem getCycleBaselineMove_mem {ai : AIController} {head : Cell}
    {moves : List Move} {snake foods : List Cell} {r : ScoredMove}
    (h : getCycleBaselineMove ai head moves snake foods = some r) :
    (⟨r.dir, r.pos⟩ : Move) ∈ moves := by
  unfold getCycleBaselineMove at h
  cases hn : ai.cycle.getNextCell head with
  | none => rw [hn] at h; simp at h
  | some nextCycleCell =>
    rw [hn] at h
    dsimp only at h
    cases hf : moves.find? (fun m =>
        decide (m.pos.x = nextCycleCell.x) && decide (m.pos.z = nextCycleCell.z)) with
    | none => rw [hf] at h; simp at h
    | some candidate =>
      rw [hf] at h
      dsimp only at h
      cases hsim : simulateMove ai.grid ai.bombPositions snake candidate.pos
          (isFoodCell candidate.pos foods) with
      | none => rw [hsim] at h; simp at h
      | some result =>
        rw [hsim] at h
        dsimp only at h
        injection h with h
        subst h
        have := List.mem_of_find?_eq_some hf
        cases candidate
        exact this

theorem shortcutCandidate_mem {ai : AIController} {head : Cell} {moves : List Move}
    {snake foods staticObstacles : List Cell} {headIndex : Int} {target : Cell}
    {r : ScoredMove}
    (h : shortcutCandidate ai head moves snake foods staticObstacles headIndex target =
      some (some r)) :
    (⟨r.dir, r.pos⟩ : Move) ∈ moves := by
  unfold shortcutCandidate at h
  cases hp : findPath ai.grid head target staticObstacles with
  | none => rw [hp] at h; simp at h
  | some path =>
    rw [hp] at h
    dsimp only at h
    split at h
    · simp at h
    split at h
    · simp at h
    cases hf : moves.find? (fun item =>
        decide (item.pos.x = (path.headD ⟨0, 0⟩).x) &&
        decide (item.pos.z = (path.headD ⟨0, 0⟩).z)) with
    | none => rw [hf] at h; simp at h
    | some move =>
      rw [hf] at h
      dsimp only at h
      cases hv : validateShortcutPath ai path snake target foods with
      | none => rw [hv] at h; simp at h
      | some validation =>
        rw [hv] at h
        dsimp only at h
        injection h with h
        injection h with h
        subst h
        have := List.mem_of_find?_eq_some hf
        cases move
        exact this

theorem getBestShortcutMove_mem {ai : AIController} {head : Cell}
    {moves : List Move} {snake foods : List Cell} {r : ScoredMove}
    (h : (getBestShortcutMove ai head moves snake foods).1 = some r) :
    (⟨r.dir, r.pos⟩ : Move) ∈ moves := by
  unfold getBestShortcutMove at h
  split_ifs at h <;>
    first
    | exact absurd h (by simp)
    | exact (foldl_considerBest_pair_eq_some _ _ _ _ h).elim
        (fun hacc => absurd hacc (by simp))
        (fun hex => match hex with | ⟨_, _, hg⟩ => shortcutCandidate_mem hg)

theorem fallbackCandidate_dir_pos {ai : AIController} {snake foods : List Cell}
    {move : Move} {r : ScoredMove}
    (h : fallbackCandidate ai snake foods move = some r) :
    r.dir = move.dir ∧ r.pos = move.pos := by
  unfold fallbackCandidate at h
  cases hsim : simulateMove ai.grid ai.bombPositions snake move.pos
      (isFoodCell move.pos foods) with
  | none => rw [hsim] at h; simp at h
  | some result =>
    rw [hsim] at h
    dsimp only at h
    injection h with h
    subst h
    exact ⟨rfl, rfl⟩

theorem getBestFallbackMove_mem {ai : AIController} {moves : List Move}
    {snake foods : List Cell} {r : ScoredMove}
    (h : getBestFallbackMove ai moves snake foods = some r) :
    (⟨r.dir, r.pos⟩ : Move) ∈ moves := by
  unfold getBestFallbackMove at h
  rcases foldl_considerBest_eq_some _ _ _ _ h with hacc | ⟨move, hmove, hg⟩
  · exact absurd hacc (by simp)
  · obtain ⟨h1, h2⟩ := fallbackCandidate_dir_pos hg
    rw [h1, h2]
    cases move
    exact hmove

theorem selectCycleOrFallback_returns (ai : AIController) (moves : List Move)
    (snake foods : List Cell) (cycleMove : Option ScoredMove)
    (hmoves : moves ≠ [])
    (hcm : ∀ cm, cycleMove = some cm → (⟨cm.dir, cm.pos⟩ : Move) ∈ moves) :
    ∃ m ∈ moves, (selectCycleOrFallback ai moves snake foods cycleMove).1 = m.dir := by
  unfold selectCycleOrFallback
  cases hc : cycleMove with
  | some cm => exact ⟨⟨cm.dir, cm.pos⟩, hcm cm hc, rfl⟩
  | none =>
    cases hfb : getBestFallbackMove ai moves snake foods with
    | some fm => exact ⟨⟨fm.dir, fm.pos⟩, getBestFallbackMove_mem hfb, rfl⟩
    | none =>
      refine ⟨moves.headD ⟨⟨0, 0⟩, ⟨0, 0⟩⟩, ?_, rfl⟩
      cases moves with
      | nil => exact absurd rfl hmoves
      | cons m tl => exact List.mem_cons_self m tl

/-- Every selection of `dispatchPolicies` is the direction of a member of
the legal-move list. -/
theorem dispatchPolicies_returns (ai : AIController) (headPos : Cell)
    (occupiedCells foods : List Cell) (moves : List Move) (hmoves : moves ≠ []) :
    ∃ m ∈ moves, (dispatchPolicies ai headPos occupiedCells foods moves).1 = m.dir := by
  unfold dispatchPolicies
  cases hdf : getDirectSafeFoodMove ai moves occupiedCells foods with
  | some m => exact ⟨⟨m.dir, m.pos⟩, getDirectSafeFoodMove_mem hdf, rfl⟩
  | none =>
    cases hec : getEarlyGameFoodChaseMove ai headPos moves occupiedCells foods with
    | some m => exact ⟨⟨m.dir, m.pos⟩, getEarlyGameFoodChaseMove_mem hec, rfl⟩
    | none =>
      dsimp only
      generalize hcm : (if ai.cycle.isValid = true then
          getCycleBaselineMove ai headPos moves occupiedCells foods
        else none) = cycleMove
      generalize hsr : (if ai.cycle.isValid = true then
          getBestShortcutMove ai headPos moves occupiedCells foods
        else ((none, 0) : Option ScoredMove × Nat)) = shortcutResult
      have hcmem : ∀ cm, cycleMove = some cm → (⟨cm.dir, cm.pos⟩ : Move) ∈ moves := by
        intro cm h
        rw [← hcm] at h
        split_ifs at h with hv
        all_goals first
          | exact getCycleBaselineMove_mem h
          | exact absurd h (by simp)
      cases hsc : shortcutResult.1 with
      | some sm =>
        have hsmem : (⟨sm.dir, sm.pos⟩ : Move) ∈ moves := by
          rw [← hsr] at hsc
          split_ifs at hsc with hv
          all_goals first
            | exact getBestShortcutMove_mem hsc
            | exact absurd hsc (by simp)
        dsimp only
        split_ifs with htake
        · exact ⟨⟨sm.dir, sm.pos⟩, hsmem, rfl⟩
        · exact selectCycleOrFallback_returns _ _ _ _ _ hmoves hcmem
      | none =>
        dsimp only
        exact selectCycleOrFallback_returns _ _ _ _ _ hmoves hcmem

/-- Every direction `getNextDirection` returns is either `currentDir` or the
direction of a member of the legal-move list. -/
theorem getNextDirection_returns (ai0 : AIController) (headPos currentDir : Cell)
    (occupiedCells : List Cell) (foodPos : Option (List (Option Cell))) :
    (getNextDirection ai0 headPos currentDir occupiedCells foodPos).1 = currentDir ∨
    ∃ m ∈ getValidMoves ai0.grid ai0.bombPositions headPos currentDir occupiedCells,
      (getNextDirection ai0 headPos currentDir occupiedCells foodPos).1 = m.dir := by
  simp only [getNextDirection]
  split_ifs with h1 h2
  · exact Or.inl rfl
  · exact Or.inl rfl
  · refine Or.inr (dispatchPolicies_returns _ headPos occupiedCells _ _ ?_)
    intro hc
    rw [hc] at h2
    exact h2 rfl

/-- The three outcome shapes of `getNextDirection`: empty body, no legal
move, or a direction taken from the legal-move list. -/
theorem getNextDirection_cases (ai0 : AIController) (headPos currentDir : Cell)
    (occupiedCells : List Cell) (foodPos : Option (List (Option Cell))) :
    (occupiedCells.length = 0 ∧
      getNextDirection ai0 headPos currentDir occupiedCells foodPos =
        (currentDir, steppedController ai0)) ∨
    (occupiedCells.length ≠ 0 ∧
      getValidMoves ai0.grid ai0.bombPositions headPos currentDir occupiedCells = [] ∧
      getNextDirection ai0 headPos currentDir occupiedCells foodPos =
        (currentDir, noLegalMoveController ai0)) ∨
    (occupiedCells.length ≠ 0 ∧
      getValidMoves ai0.grid ai0.bombPositions headPos currentDir occupiedCells ≠ [] ∧
      ∃ m ∈ getValidMoves ai0.grid ai0.bombPositions headPos currentDir occupiedCells,
        (getNextDirection ai0 headPos currentDir occupiedCells foodPos).1 = m.dir) := by
  by_cases h1 : occupiedCells.length = 0
  · refine Or.inl ⟨h1, ?_⟩
    simp only [getNextDirection]
    rw [if_pos h1]
    rfl
  · by_cases h2 : getValidMoves ai0.grid ai0.bombPositions headPos currentDir
        occupiedCells = []
    · refine Or.inr (Or.inl ⟨h1, h2, ?_⟩)
      simp only [getNextDirection]
      rw [if_neg h1, if_pos (by rw [List.isEmpty_iff]; exact h2)]
      rfl
    · refine Or.inr (Or.inr ⟨h1, h2, ?_⟩)
      simp only [getNextDirection]
      rw [if_neg h1, if_neg (by rw [List.isEmpty_iff]; exact h2)]
      exact dispatchPolicies_returns _ headPos occupiedCells _ _ h2

theorem mem_dropLast_drop_one {x : Cell} {l : List Cell}
    (h : x ∈ (l.drop 1).dropLast) : x ∈ l.dropLast := by
  match l with
  | [] => simpa using h
  | [a] => simpa using h
  | a :: b :: t =>
    rw [List.dropLast_cons₂]
    exact List.mem_cons_of_mem a (by simpa using h)

theorem mem_dropLast_cases {x : Cell} {l : List Cell} (d : Cell) (hne : l ≠ [])
    (h : x ∈ l.dropLast) : x = l.headD d ∨ x ∈ (l.drop 1).dropLast := by
  match l with
  | [] => exact absurd rfl hne
  | [a] => simp at h
  | a :: b :: t =>
    rw [List.dropLast_cons₂] at h
    rcases List.mem_cons.mp h with rfl | h
    · exact Or.inl rfl
    · exact Or.inr (by simpa using h)

/-- C9 counterexample: with an empty body, `getNextDirection` returns
`current_dir` but leaves the decision label at its previous value (`"init"`),
not `"no-legal-move"` as the claim states. -/
theorem C9_malformed_counterexample :
    (getNextDirection (AIController.init grid22 "normal") ⟨0, 0⟩ ⟨1, 0⟩ [] none).1 =
      ⟨1, 0⟩ ∧
    (getNextDirection (AIController.init grid22 "normal") ⟨0, 0⟩ ⟨1, 0⟩ []
        none).2.debugStats.lastDecision = "init" ∧
    ("init" : String) ≠ "no-legal-move" := by
  refine ⟨by decide, by decide, by decide⟩

/-- C9 amended: an empty body returns `current_dir` with the decision label
unchanged (only the step counters move); a non-empty body with an empty
legal-move list — as for a head so far out of bounds that no neighbour is a
legal cell — returns `current_dir` and sets the label `"no-legal-move"`.
(An out-of-bounds head with a legal neighbour instead produces a normal
decision.) -/
theorem C9_malformed_amended (ai0 : AIController) (headPos currentDir : Cell)
    (occupiedCells : List Cell) (foodPos : Option (List (Option Cell))) :
    (occupiedCells = [] →
      getNextDirection ai0 headPos currentDir occupiedCells foodPos =
        (currentDir, steppedController ai0) ∧
      (steppedController ai0).debugStats.lastDecision = ai0.debugStats.lastDecision) ∧
    (occupiedCells ≠ [] →
      getValidMoves ai0.grid ai0.bombPositions headPos currentDir occupiedCells = [] →
      getNextDirection ai0 headPos currentDir occupiedCells foodPos =
        (currentDir, noLegalMoveController ai0) ∧
      (noLegalMoveController ai0).debugStats.lastDecision = "no-legal-move") := by
  constructor
  · intro hnil
    rcases getNextDirection_cases ai0 headPos currentDir occupiedCells foodPos with
      ⟨-, heq⟩ | ⟨hl, -, -⟩ | ⟨hl, -, -⟩
    · exact ⟨heq, rfl⟩
    · exact absurd (by rw [hnil]; rfl) hl
    · exact absurd (by rw [hnil]; rfl) hl
  · intro hne hmv
    rcases getNextDirection_cases ai0 headPos currentDir occupiedCells foodPos with
      ⟨hl, -⟩ | ⟨-, -, heq⟩ | ⟨-, hmv2, -⟩
    · exact absurd (List.length_eq_zero.mp hl) hne
    · exact ⟨heq, rfl⟩
    · exact absurd hmv hmv2

/-- Witness for `C9_malformed_amended` at the empty body and at a fully
out-of-bounds head. -/
theorem C9_malformed_amended_witness :
    (([] : List Cell) = [] ∧
      getNextDirection (AIController.init grid22 "normal") ⟨0, 0⟩ ⟨1, 0⟩ [] none =
        (⟨1, 0⟩, steppedController (AIController.init grid22 "normal"))) ∧
    (([⟨5, 5⟩] : List Cell) ≠ [] ∧
      getValidMoves grid22 [] ⟨5, 5⟩ ⟨1, 0⟩ [⟨5, 5⟩] = [] ∧
      getNextDirection (AIController.init grid22 "normal") ⟨5, 5⟩ ⟨1, 0⟩ [⟨5, 5⟩] none =
        (⟨1, 0⟩, noLegalMoveController (AIController.init grid22 "normal"))) :=
  ⟨⟨rfl, ((C9_malformed_amended (AIController.init grid22 "normal") ⟨0, 0⟩ ⟨1, 0⟩ []
      none).1 rfl).1⟩,
   ⟨by decide, by decide,
    ((C9_malformed_amended (AIController.init grid22 "normal") ⟨5, 5⟩ ⟨1, 0⟩ [⟨5, 5⟩]
      none).2 (by decide) (by decide)).1⟩⟩

/-- Accumulator invariant of the `getSafestMove` scan: the running best is
`currentDir` or a non-reversing direction. -/
theorem getSafestMove_foldl_inv (ai : AIController) (head currentDir : Cell)
    (obstacles : List Cell) (l : List Cell) (acc : Cell × Int)
    (hacc : acc.1 = currentDir ∨
      ¬ (acc.1.x = -currentDir.x ∧ acc.1.z = -currentDir.z)) :
    (l.foldl (fun acc move =>
      if move.x = -currentDir.x ∧ move.z = -currentDir.z then acc
      else
        if ¬ ai.grid.inBounds ⟨head.x + move.x, head.z + move.z⟩ then acc
        else if isOccupied ⟨head.x + move.x, head.z + move.z⟩ obstacles then acc
        else
          if (floodFill ai.grid ⟨head.x + move.x, head.z + move.z⟩ obstacles : Int) > acc.2
          then (move, (floodFill ai.grid ⟨head.x + move.x, head.z + move.z⟩ obstacles : Int))
          else acc) acc).1 = currentDir ∨
    ¬ (((l.foldl (fun acc move =>
      if move.x = -currentDir.x ∧ move.z = -currentDir.z then acc
      else
        if ¬ ai.grid.inBounds ⟨head.x + move.x, head.z + move.z⟩ then acc
        else if isOccupied ⟨head.x + move.x, head.z + move.z⟩ obstacles then acc
        else
          if (floodFill ai.grid ⟨head.x + move.x, head.z + move.z⟩ obstacles : Int) > acc.2
          then (move, (floodFill ai.grid ⟨head.x + move.x, head.z + move.z⟩ obstacles : Int))
          else acc) acc).1).x = -currentDir.x ∧
      ((l.foldl (fun acc move =>
      if move.x = -currentDir.x ∧ move.z = -currentDir.z then acc
      else
        if ¬ ai.grid.inBounds ⟨head.x + move.x, head.z + move.z⟩ then acc
        else if isOccupied ⟨head.x + move.x, head.z + move.z⟩ obstacles then acc
        else
          if (floodFill ai.grid ⟨head.x + move.x, head.z + move.z⟩ obstacles : Int) > acc.2
          then (move, (floodFill ai.grid ⟨head.x + move.x, head.z + move.z⟩ obstacles : Int))
          else acc) acc).1).z = -currentDir.z) := by
  induction l generalizing acc with
  | nil => exact hacc
  | cons d t ih =>
    rw [List.foldl_cons]
    apply ih
    split_ifs with hrev hin hocc hflood
    all_goals first
      | exact hacc
      | exact Or.inr hrev

/-- C5: the returned direction of `getNextDirection`, and of the
internal-exception fallback `getSafestMove`, is never the additive inverse of
a non-zero `current_dir`. -/
theorem C5_no_reversal (ai0 : AIController) (headPos currentDir : Cell)
    (occupiedCells : List Cell) (foodPos : Option (List (Option Cell)))
    (head2 : Cell) (obstacles : List Cell)
    (h : currentDir ≠ ⟨0, 0⟩) :
    (getNextDirection ai0 headPos currentDir occupiedCells foodPos).1 ≠
      ⟨-currentDir.x, -currentDir.z⟩ ∧
    getSafestMove ai0 head2 currentDir obstacles ≠ ⟨-currentDir.x, -currentDir.z⟩ := by
  have hzero : currentDir.x ≠ 0 ∨ currentDir.z ≠ 0 := by
    by_contra hc
    push_neg at hc
    exact h (Cell.eq_iff.mpr ⟨hc.1, hc.2⟩)
  have hcurne : currentDir ≠ ⟨-currentDir.x, -currentDir.z⟩ := by
    intro hc
    rw [Cell.eq_iff] at hc
    simp only at hc
    rcases hzero with hx | hz
    · exact hx (by omega)
    · exact hz (by omega)
  constructor
  · rcases getNextDirection_returns ai0 headPos currentDir occupiedCells foodPos with
      hr | ⟨m, hm, hr⟩
    · rw [hr]; exact hcurne
    · rw [hr]
      obtain ⟨-, -, -, -, -, hrev⟩ := getValidMoves_mem hm
      intro hc
      rw [Cell.eq_iff] at hc
      simp only at hc
      exact hrev ⟨by omega, by omega, hzero⟩
  · unfold getSafestMove
    rcases getSafestMove_foldl_inv ai0 head2 currentDir obstacles dirList
        (currentDir, -1) (Or.inl rfl) with hr | hr
    · rw [hr]; exact hcurne
    · intro hc
      rw [Cell.eq_iff] at hc
      simp only at hc
      exact hr ⟨hc.1, hc.2⟩

/-- Witness for `C5_no_reversal` with `current_dir = (1,0)`. -/
theorem C5_no_reversal_witness :
    ((⟨1, 0⟩ : Cell) ≠ ⟨0, 0⟩) ∧
    (getNextDirection (AIController.init grid22 "normal") ⟨0, 0⟩ ⟨1, 0⟩ [⟨0, 0⟩]
        none).1 ≠ ⟨-1, -0⟩ ∧
    getSafestMove (AIController.init grid22 "normal") ⟨0, 0⟩ ⟨1, 0⟩ [] ≠ ⟨-1, -0⟩ :=
  ⟨by decide, C5_no_reversal (AIController.init grid22 "normal") ⟨0, 0⟩ ⟨1, 0⟩ [⟨0, 0⟩]
    none ⟨0, 0⟩ [] (by decide)⟩

/-- C1 counterexample: on the 2×2 grid with a bomb at `(1,1)`, body
`[(1,0)]`, head `(1,0)` and `current_dir = (1,0)`, the only cell satisfying
the claim's condition is behind the snake (direction `(-1,0)`, the reverse of
`current_dir`). The call returns `current_dir`, whose target `(2,0)` is out
of bounds — yet a satisfying cell `(0,0)` exists, so the claim's disjunction
fails. -/
theorem C1_legality_counterexample :
    ([⟨1, 0⟩] : List Cell) ≠ [] ∧
    grid22.inBounds ⟨1, 0⟩ = true ∧
    ([⟨1, 0⟩] : List Cell).headD ⟨0, 0⟩ = ⟨1, 0⟩ ∧
    (getNextDirection aiCexC1 ⟨1, 0⟩ ⟨1, 0⟩ [⟨1, 0⟩] none).1 = ⟨1, 0⟩ ∧
    grid22.inBounds ⟨1 + 1, 0 + 0⟩ = false ∧
    (⟨-1, 0⟩ : Cell) ∈ dirList ∧
    grid22.inBounds ⟨1 + -1, 0 + 0⟩ = true ∧
    (⟨1 + -1, 0 + 0⟩ : Cell) ∉ ([⟨1, 0⟩] : List Cell).dropLast ∧
    (⟨1 + -1, 0 + 0⟩ : Cell) ∉ aiCexC1.bombPositions := by
  refine ⟨by decide, by decide, by decide, by decide, by decide, by decide, by decide,
    by decide, by decide⟩

/-- C1 amended: with a non-empty in-bounds body whose first cell is the head,
the returned direction, applied to the head, yields a cell that is in bounds
and not in `body[0..length−2] ∪ hazards`, OR — if no cell reachable by a
non-reversing direction satisfies that condition — the returned direction
equals `current_dir`. (The original claim omits the no-reversal restriction:
when the only satisfying cell lies behind the snake, `current_dir` is
returned even though a satisfying cell exists.) -/
theorem C1_legality_amended (ai0 : AIController) (headPos currentDir : Cell)
    (occupiedCells : List Cell) (foodPos : Option (List (Option Cell)))
    (hne : occupiedCells ≠ [])
    (hbounds : ∀ c ∈ occupiedCells, ai0.grid.inBounds c = true)
    (hhead : occupiedCells.headD ⟨0, 0⟩ = headPos) :
    (ai0.grid.inBounds
        ⟨headPos.x + ((getNextDirection ai0 headPos currentDir occupiedCells foodPos).1).x,
         headPos.z + ((getNextDirection ai0 headPos currentDir occupiedCells foodPos).1).z⟩
        = true ∧
      (⟨headPos.x + ((getNextDirection ai0 headPos currentDir occupiedCells foodPos).1).x,
        headPos.z + ((getNextDirection ai0 headPos currentDir occupiedCells foodPos).1).z⟩
        : Cell) ∉ occupiedCells.dropLast ∧
      (⟨headPos.x + ((getNextDirection ai0 headPos currentDir occupiedCells foodPos).1).x,
        headPos.z + ((getNextDirection ai0 headPos currentDir occupiedCells foodPos).1).z⟩
        : Cell) ∉ ai0.bombPositions) ∨
    ((∀ dir ∈ dirList,
        ¬ (currentDir.x = -dir.x ∧ currentDir.z = -dir.z ∧
            (currentDir.x ≠ 0 ∨ currentDir.z ≠ 0)) →
        ¬ (ai0.grid.inBounds ⟨headPos.x + dir.x, headPos.z + dir.z⟩ = true ∧
            (⟨headPos.x + dir.x, headPos.z + dir.z⟩ : Cell) ∉ occupiedCells.dropLast ∧
            (⟨headPos.x + dir.x, headPos.z + dir.z⟩ : Cell) ∉ ai0.bombPositions)) ∧
      (getNextDirection ai0 headPos currentDir occupiedCells foodPos).1 = currentDir) := by
  rcases getNextDirection_cases ai0 headPos currentDir occupiedCells foodPos with
    ⟨hl, -⟩ | ⟨-, hmv, heq⟩ | ⟨-, -, m, hm, hr⟩
  · exact absurd (List.length_eq_zero.mp hl) hne
  · refine Or.inr ⟨?_, by rw [heq]⟩
    intro dir hdir hrev ⟨hin, hdrop, hbomb⟩
    have : (⟨dir, ⟨headPos.x + dir.x, headPos.z + dir.z⟩⟩ : Move) ∈
        getValidMoves ai0.grid ai0.bombPositions headPos currentDir occupiedCells := by
      refine getValidMoves_complete hdir hrev hin ?_
      rw [List.mem_append]
      rintro (hc | hc)
      · exact hdrop (mem_dropLast_drop_one hc)
      · exact hbomb hc
    rw [hmv] at this
    simp at this
  · obtain ⟨hdir, hpos, hin, hdrop, hbomb, -⟩ := getValidMoves_mem hm
    rw [hr, ← hpos]
    refine Or.inl ⟨hin, ?_, hbomb⟩
    intro hmemdl
    rcases mem_dropLast_cases ⟨0, 0⟩ hne hmemdl with hhd | htl
    · rw [hhead] at hhd
      rw [hpos, Cell.eq_iff] at hhd
      simp only at hhd
      have hnz : m.dir.x ≠ 0 ∨ m.dir.z ≠ 0 := by
        have hdir' := hdir
        simp [dirList] at hdir'
        rcases hdir' with h4 | h4 | h4 | h4 <;> rw [h4] <;> simp
      rcases hnz with hx | hz
      · exact hx (by omega)
      · exact hz (by omega)
    · exact hdrop htl

/-- Witness for `C1_legality_amended` at a singleton body on the 2×2 grid. -/
theorem C1_legality_amended_witness :
    (([⟨0, 0⟩] : List Cell) ≠ [] ∧
      (∀ c ∈ ([⟨0, 0⟩] : List Cell),
        (AIController.init grid22 "normal").grid.inBounds c = true) ∧
      ([⟨0, 0⟩] : List Cell).headD ⟨0, 0⟩ = ⟨0, 0⟩) ∧
    (((AIController.init grid22 "normal").grid.inBounds
        ⟨(0 : Int) + ((getNextDirection (AIController.init grid22 "normal") ⟨0, 0⟩ ⟨0, 0⟩
            [⟨0, 0⟩] none).1).x,
         (0 : Int) + ((getNextDirection (AIController.init grid22 "normal") ⟨0, 0⟩ ⟨0, 0⟩
            [⟨0, 0⟩] none).1).z⟩ = true ∧
      (⟨(0 : Int) + ((getNextDirection (AIController.init grid22 "normal") ⟨0, 0⟩ ⟨0, 0⟩
            [⟨0, 0⟩] none).1).x,
        (0 : Int) + ((getNextDirection (AIController.init grid22 "normal") ⟨0, 0⟩ ⟨0, 0⟩
            [⟨0, 0⟩] none).1).z⟩ : Cell) ∉ ([⟨0, 0⟩] : List Cell).dropLast ∧
      (⟨(0 : Int) + ((getNextDirection (AIController.init grid22 "normal") ⟨0, 0⟩ ⟨0, 0⟩
            [⟨0, 0⟩] none).1).x,
        (0 : Int) + ((getNextDirection (AIController.init grid22 "normal") ⟨0, 0⟩ ⟨0, 0⟩
            [⟨0, 0⟩] none).1).z⟩ : Cell) ∉
        (AIController.init grid22 "normal").bombPositions) ∨
    ((∀ dir ∈ dirList,
        ¬ ((0 : Int) = -dir.x ∧ (0 : Int) = -dir.z ∧ ((0 : Int) ≠ 0 ∨ (0 : Int) ≠ 0)) →
        ¬ ((AIController.init grid22 "normal").grid.inBounds
            ⟨(0 : Int) + dir.x, (0 : Int) + dir.z⟩ = true ∧
          (⟨(0 : Int) + dir.x, (0 : Int) + dir.z⟩ : Cell) ∉
            ([⟨0, 0⟩] : List Cell).dropLast ∧
          (⟨(0 : Int) + dir.x, (0 : Int) + dir.z⟩ : Cell) ∉
            (AIController.init grid22 "normal").bombPositions)) ∧
      (getNextDirection (AIController.init grid22 "normal") ⟨0, 0⟩ ⟨0, 0⟩ [⟨0, 0⟩]
        none).1 = ⟨0, 0⟩)) :=
  ⟨⟨by decide, by decide, by decide⟩,
    C1_legality_amended (AIController.init grid22 "normal") ⟨0, 0⟩ ⟨0, 0⟩ [⟨0, 0⟩] none
      (by decide) (by decide) (by decide)⟩

/-! ### Flood-fill coverage (C6) -/

theorem inBounds_iff (g : GridBounds) (c : Cell) :
    g.inBounds c = true ↔
      g.minX ≤ c.x ∧ c.x ≤ g.maxX ∧ g.minZ ≤ c.z ∧ c.z ≤ g.maxZ := by
  simp [GridBounds.inBounds, and_assoc]

theorem connected_reach_right {g : GridBounds} {S : List Cell}
    (hclosed : ∀ v ∈ S, ∀ n ∈ getNeighbors v, g.inBounds n = true → n ∈ S) :
    ∀ (d : Nat) (v : Cell), v ∈ S → g.inBounds v = true →
      g.inBounds ⟨v.x + d, v.z⟩ = true → (⟨v.x + d, v.z⟩ : Cell) ∈ S := by
  intro d
  induction d with
  | zero =>
    intro v hv hvb hb
    have heq : (⟨v.x + ((0 : Nat) : Int), v.z⟩ : Cell) = v := by cases v; simp
    rw [heq]
    exact hv
  | succ d ih =>
    intro v hv hvb hb
    rw [inBounds_iff] at hb
    dsimp only at hb
    push_cast at hb
    have hmid : g.inBounds ⟨v.x + d, v.z⟩ = true := by
      rw [inBounds_iff]
      dsimp only
      push_cast
      rw [inBounds_iff] at hvb
      omega
    have hmem := ih v hv hvb hmid
    have hstep := hclosed _ hmem ⟨v.x + (d : Int) + 1, v.z⟩ (by simp [getNeighbors])
    have heq : (⟨v.x + ((d + 1 : Nat) : Int), v.z⟩ : Cell) = ⟨v.x + (d : Int) + 1, v.z⟩ := by
      rw [Cell.eq_iff]
      dsimp only
      push_cast
      omega
    rw [heq]
    refine hstep ?_
    rw [inBounds_iff]
    dsimp only
    omega

theorem connected_reach_left {g : GridBounds} {S : List Cell}
    (hclosed : ∀ v ∈ S, ∀ n ∈ getNeighbors v, g.inBounds n = true → n ∈ S) :
    ∀ (d : Nat) (v : Cell), v ∈ S → g.inBounds v = true →
      g.inBounds ⟨v.x - d, v.z⟩ = true → (⟨v.x - d, v.z⟩ : Cell) ∈ S := by
  intro d
  induction d with
  | zero =>
    intro v hv hvb hb
    have heq : (⟨v.x - ((0 : Nat) : Int), v.z⟩ : Cell) = v := by cases v; simp
    rw [heq]
    exact hv
  | succ d ih =>
    intro v hv hvb hb
    rw [inBounds_iff] at hb
    dsimp only at hb
    push_cast at hb
    have hmid : g.inBounds ⟨v.x - d, v.z⟩ = true := by
      rw [inBounds_iff]
      dsimp only
      push_cast
      rw [inBounds_iff] at hvb
      omega
    have hmem := ih v hv hvb hmid
    have hstep := hclosed _ hmem ⟨v.x - (d : Int) - 1, v.z⟩ (by simp [getNeighbors])
    have heq : (⟨v.x - ((d + 1 : Nat) : Int), v.z⟩ : Cell) = ⟨v.x - (d : Int) - 1, v.z⟩ := by
      rw [Cell.eq_iff]
      dsimp only
      push_cast
      omega
    rw [heq]
    refine hstep ?_
    rw [inBounds_iff]
    dsimp only
    omega

theorem connected_reach_down {g : GridBounds} {S : List Cell}
    (hclosed : ∀ v ∈ S, ∀ n ∈ getNeighbors v, g.inBounds n = true → n ∈ S) :
    ∀ (d : Nat) (v : Cell), v ∈ S → g.inBounds v = true →
      g.inBounds ⟨v.x, v.z + d⟩ = true → (⟨v.x, v.z + d⟩ : Cell) ∈ S := by
  intro d
  induction d with
  | zero =>
    intro v hv hvb hb
    have heq : (⟨v.x, v.z + ((0 : Nat) : Int)⟩ : Cell) = v := by cases v; simp
    rw [heq]
    exact hv
  | succ d ih =>
    intro v hv hvb hb
    rw [inBounds_iff] at hb
    dsimp only at hb
    push_cast at hb
    have hmid : g.inBounds ⟨v.x, v.z + d⟩ = true := by
      rw [inBounds_iff]
      dsimp only
      push_cast
      rw [inBounds_iff] at hvb
      omega
    have hmem := ih v hv hvb hmid
    have hstep := hclosed _ hmem ⟨v.x, v.z + (d : Int) + 1⟩ (by simp [getNeighbors])
    have heq : (⟨v.x, v.z + ((d + 1 : Nat) : Int)⟩ : Cell) = ⟨v.x, v.z + (d : Int) + 1⟩ := by
      rw [Cell.eq_iff]
      dsimp only
      push_cast
      omega
    rw [heq]
    refine hstep ?_
    rw [inBounds_iff]
    dsimp only
    omega

theorem connected_reach_up {g : GridBounds} {S : List Cell}
    (hclosed : ∀ v ∈ S, ∀ n ∈ getNeighbors v, g.inBounds n = true → n ∈ S) :
    ∀ (d : Nat) (v : Cell), v ∈ S → g.inBounds v = true →
      g.inBounds ⟨v.x, v.z - d⟩ = true → (⟨v.x, v.z - d⟩ : Cell) ∈ S := by
  intro d
  induction d with
  | zero =>
    intro v hv hvb hb
    have heq : (⟨v.x, v.z - ((0 : Nat) : Int)⟩ : Cell) = v := by cases v; simp
    rw [heq]
    exact hv
  | succ d ih =>
    intro v hv hvb hb
    rw [inBounds_iff] at hb
    dsimp only at hb
    push_cast at hb
    have hmid : g.inBounds ⟨v.x, v.z - d⟩ = true := by
      rw [inBounds_iff]
      dsimp only
      push_cast
      rw [inBounds_iff] at hvb
      omega
    have hmem := ih v hv hvb hmid
    have hstep := hclosed _ hmem ⟨v.x, v.z - (d : Int) - 1⟩ (by simp [getNeighbors])
    have heq : (⟨v.x, v.z - ((d + 1 : Nat) : Int)⟩ : Cell) = ⟨v.x, v.z - (d : Int) - 1⟩ := by
      rw [Cell.eq_iff]
      dsimp only
      push_cast
      omega
    rw [heq]
    refine hstep ?_
    rw [inBounds_iff]
    dsimp only
    omega

/-- Any set of cells containing an in-bounds cell and closed under in-bounds
neighbours contains every in-bounds cell: the grid rectangle is 4-connected. -/
theorem grid_connected {g : GridBounds} {S : List Cell} {start : Cell}
    (hstart : start ∈ S) (hsb : g.inBounds start = true)
    (hclosed : ∀ v ∈ S, ∀ n ∈ getNeighbors v, g.inBounds n = true → n ∈ S)
    (c : Cell) (hc : g.inBounds c = true) : c ∈ S := by
  have hsb' := (inBounds_iff g start).mp hsb
  have hc' := (inBounds_iff g c).mp hc
  have hmidb : g.inBounds ⟨c.x, start.z⟩ = true := by
    rw [inBounds_iff]
    exact ⟨hc'.1, hc'.2.1, hsb'.2.2.1, hsb'.2.2.2⟩
  have hmid : (⟨c.x, start.z⟩ : Cell) ∈ S := by
    rcases le_total start.x c.x with hle | hle
    · have hd : c.x = start.x + ((c.x - start.x).toNat : Int) := by omega
      have := connected_reach_right hclosed (c.x - start.x).toNat start hstart hsb
        (by rw [← hd] at *; exact hmidb)
      rw [← hd] at this
      exact this
    · have hd : c.x = start.x - ((start.x - c.x).toNat : Int) := by omega
      have := connected_reach_left hclosed (start.x - c.x).toNat start hstart hsb
        (by rw [← hd] at *; exact hmidb)
      rw [← hd] at this
      exact this
  rcases le_total start.z c.z with hle | hle
  · have hd : c.z = start.z + ((c.z - start.z).toNat : Int) := by omega
    have := connected_reach_down hclosed (c.z - start.z).toNat ⟨c.x, start.z⟩ hmid hmidb
      (by rw [← hd] at *; cases c; exact hc)
    rw [← hd] at this
    cases c
    exact this
  · have hd : c.z = start.z - ((start.z - c.z).toNat : Int) := by omega
    have := connected_reach_up hclosed (start.z - c.z).toNat ⟨c.x, start.z⟩ hmid hmidb
      (by rw [← hd] at *; cases c; exact hc)
    rw [← hd] at this
    cases c
    exact this

/-- A duplicate-free list of in-bounds cells has at most `cellCount`
entries. -/
theorem visited_length_le (g : GridBounds) (visited : List Cell)
    (hnodup : visited.Nodup) (hvb : ∀ v ∈ visited, g.inBounds v = true) :
    visited.length ≤ g.cellCount := by
  have hsub : visited.toFinset ⊆ gridCellsFinset g := by
    intro x hx
    rw [List.mem_toFinset] at hx
    exact (mem_gridCellsFinset g x).mpr (hvb x hx)
  have := Finset.card_le_card hsub
  rw [List.toFinset_card_of_nodup hnodup, card_gridCellsFinset] at this
  exact this

/-- Main loop invariant for `floodFillAux` with no obstacles: given enough
fuel, the loop visits the whole grid and returns `cellCount`. -/
theorem floodFillAux_full (g : GridBounds) (start : Cell)
    (hsb : g.inBounds start = true) :
    ∀ (fuel : Nat) (queue visited : List Cell) (count : Nat),
    count = visited.length →
    visited.Nodup →
    (∀ v ∈ visited, g.inBounds v = true) →
    (∀ v ∈ visited, ∀ n ∈ getNeighbors v,
      ¬ g.inBounds n = true ∨ n ∈ visited ∨ n ∈ queue) →
    (start ∈ visited ∨ start ∈ queue) →
    5 * (g.cellCount - count) + queue.length < fuel →
    floodFillAux g [] fuel queue visited count = g.cellCount := by
  intro fuel
  induction fuel with
  | zero => intro queue visited count _ _ _ _ _ hfuel; omega
  | succ fuel ih =>
    intro queue visited count hvc hnodup hvb hclosed hstart hfuel
    simp only [floodFillAux]
    by_cases hcap : count < g.cellCount
    · rw [if_pos hcap]
      match queue, hclosed, hstart, hfuel with
      | [], hclosed, hstart, hfuel =>
        -- queue exhausted: `visited` is neighbour-closed and holds `start`
        dsimp only
        have hstartv : start ∈ visited := by
          rcases hstart with h | h
          · exact h
          · simp at h
        have hclosed' : ∀ v ∈ visited, ∀ n ∈ getNeighbors v,
            g.inBounds n = true → n ∈ visited := by
          intro v hv n hn hb
          rcases hclosed v hv n hn with h | h | h
          · exact absurd hb h
          · exact h
          · simp at h
        have hall : ∀ c : Cell, g.inBounds c = true → c ∈ visited := fun c hc =>
          grid_connected hstartv hsb hclosed' c hc
        have hsup : gridCellsFinset g ⊆ visited.toFinset := by
          intro x hx
          rw [List.mem_toFinset]
          exact hall x ((mem_gridCellsFinset g x).mp hx)
        have h1 := Finset.card_le_card hsup
        rw [List.toFinset_card_of_nodup hnodup, card_gridCellsFinset] at h1
        have h2 := visited_length_le g visited hnodup hvb
        have h1' : g.cellCount ≤ visited.length := h1
        omega
      | pos :: rest, hclosed, hstart, hfuel =>
        dsimp only
        by_cases hskip : pos ∈ visited ∨ pos ∈ ([] : List Cell) ∨ ¬ g.inBounds pos = true
        · rw [if_pos hskip]
          refine ih rest visited count hvc hnodup hvb ?_ ?_ (by simp at hfuel ⊢; omega)
          · intro v hv n hn
            rcases hclosed v hv n hn with h | h | h
            · exact Or.inl h
            · exact Or.inr (Or.inl h)
            · rcases List.mem_cons.mp h with hnp | h
              · rcases hskip with h' | h' | h'
                · exact Or.inr (Or.inl (hnp ▸ h'))
                · simp at h'
                · exact Or.inl (hnp ▸ h')
              · exact Or.inr (Or.inr h)
          · rcases hstart with h | h
            · exact Or.inl h
            · rcases List.mem_cons.mp h with hsp | h
              · rcases hskip with h' | h' | h'
                · exact Or.inl (hsp ▸ h')
                · simp at h'
                · exact absurd hsb (hsp ▸ h')
              · exact Or.inr h
        · rw [if_neg hskip]
          push_neg at hskip
          obtain ⟨hnv, -, hbv⟩ := hskip
          refine ih (rest ++ (getNeighbors pos).filter (fun n => decide (n ∉ pos :: visited)))
            (pos :: visited) (count + 1) (by simp [hvc]) (List.nodup_cons.mpr ⟨hnv, hnodup⟩)
            ?_ ?_ ?_ ?_
          · intro v hv
            rcases List.mem_cons.mp hv with hvp | hv
            · rw [hvp]
              exact hbv
            · exact hvb v hv
          · intro v hv n hn
            rcases List.mem_cons.mp hv with hvp | hv
            · by_cases hnin : n ∈ pos :: visited
              · exact Or.inr (Or.inl hnin)
              · refine Or.inr (Or.inr (List.mem_append.mpr (Or.inr ?_)))
                rw [List.mem_filter]
                refine ⟨hvp ▸ hn, by simpa using hnin⟩
            · rcases hclosed v hv n hn with h | h | h
              · exact Or.inl h
              · exact Or.inr (Or.inl (List.mem_cons_of_mem pos h))
              · rcases List.mem_cons.mp h with hnp | h
                · exact Or.inr (Or.inl (hnp ▸ List.mem_cons_self pos visited))
                · exact Or.inr (Or.inr (List.mem_append.mpr (Or.inl h)))
          · rcases hstart with h | h
            · exact Or.inl (List.mem_cons_of_mem pos h)
            · rcases List.mem_cons.mp h with hsp | h
              · exact Or.inl (hsp ▸ List.mem_cons_self pos visited)
              · exact Or.inr (List.mem_append.mpr (Or.inl h))
          · have hflen : ((getNeighbors pos).filter
                (fun n => decide (n ∉ pos :: visited))).length ≤ 4 := by
              have := List.length_filter_le (fun n => decide (n ∉ pos :: visited))
                (getNeighbors pos)
              simpa [getNeighbors] using this
            simp only [List.length_cons, List.length_append] at hfuel ⊢
            omega
    · rw [if_neg hcap]
      have := visited_length_le g visited hnodup hvb
      omega

/-- C6: flood fill from any in-bounds cell with no obstacles counts the whole
grid. -/
theorem C6_floodFill_full (g : GridBounds) (c : Cell)
    (h : g.inBounds c = true) : floodFill g c [] = g.cellCount := by
  unfold floodFill
  refine floodFillAux_full g c h (astarFuel g) [c] [] 0 rfl List.nodup_nil
    (by simp) (by simp) (Or.inr (List.mem_singleton.mpr rfl)) ?_
  simp [astarFuel]
  omega

/-- Witness for `C6_floodFill_full` on the 2×2 grid. -/
theorem C6_floodFill_full_witness :
    grid22.inBounds ⟨0, 0⟩ = true ∧ floodFill grid22 ⟨0, 0⟩ [] = grid22.cellCount :=
  ⟨by decide, C6_floodFill_full grid22 ⟨0, 0⟩ (by decide)⟩

/-! ### A* path correctness (C4/C10) -/

theorem adjacent_iff_mem_getNeighbors (v n : Cell) :
    n ∈ getNeighbors v ↔ Adjacent v n := by
  unfold Adjacent manhattan
  simp only [getNeighbors, List.mem_cons, List.not_mem_nil, or_false,
    Cell.eq_iff]
  omega

theorem validSeq_nil_iff (g : GridBounds) (obs : List Cell) (s e : Cell) :
    ValidSeq g obs s e [] ↔ s = e := by
  unfold ValidSeq
  simp [List.Chain]

theorem validSeq_cons (g : GridBounds) (obs : List Cell) {s e a : Cell}
    {p : List Cell} (h : ValidSeq g obs s e (a :: p)) :
    ValidSeq g obs a e p ∧ Adjacent s a ∧ OkCell g obs a := by
  obtain ⟨hch, hok, hlast⟩ := h
  rw [List.chain_cons] at hch
  refine ⟨⟨hch.2, fun c hc => hok c (List.mem_cons_of_mem _ hc), ?_⟩,
    hch.1, hok a (List.mem_cons_self _ _)⟩
  rw [List.getLast?_cons_cons] at hlast
  exact hlast

theorem chain_snoc {R : Cell → Cell → Prop} :
    ∀ {q : List Cell} {s k n : Cell}, List.Chain R s q →
    (s :: q).getLast? = some k → R k n → List.Chain R s (q ++ [n]) := by
  intro q
  induction q with
  | nil =>
    intro s k n _ hlast hR
    simp only [List.getLast?_singleton, Option.some.injEq] at hlast
    subst hlast
    simpa using hR
  | cons a q ih =>
    intro s k n hch hlast hR
    rw [List.chain_cons] at hch
    rw [List.getLast?_cons_cons] at hlast
    exact List.chain_cons.mpr ⟨hch.1, ih hch.2 hlast hR⟩

theorem validSeq_snoc {g : GridBounds} {obs : List Cell} {s k n : Cell}
    {q : List Cell} (h : ValidSeq g obs s k q) (hadj : Adjacent k n)
    (hok : OkCell g obs n) : ValidSeq g obs s n (q ++ [n]) := by
  obtain ⟨hch, hmem, hlast⟩ := h
  refine ⟨chain_snoc hch hlast hadj, ?_, ?_⟩
  · intro c hc
    rcases List.mem_append.mp hc with hc | hc
    · exact hmem c hc
    · rw [List.mem_singleton.mp hc]; exact hok
  · rw [show s :: (q ++ [n]) = (s :: q) ++ [n] from rfl]
    exact List.getLast?_concat (s :: q)

theorem manhattan_triangle (a b c : Cell) :
    manhattan a c ≤ manhattan a b + manhattan b c := by
  unfold manhattan
  omega

theorem heuristic_le_of_validSeq {g : GridBounds} {obs : List Cell}
    {t e : Cell} :
    ∀ {q : List Cell} {v : Cell}, ValidSeq g obs v t q →
    heuristic v e ≤ q.length + heuristic t e := by
  intro q
  induction q with
  | nil =>
    intro v h
    rw [(validSeq_nil_iff g obs v t).mp h]
    simp
  | cons a q ih =>
    intro v h
    obtain ⟨htail, hadj, _⟩ := validSeq_cons g obs h
    have h1 : heuristic v e ≤ manhattan v a + heuristic a e :=
      manhattan_triangle v a e
    have h2 : manhattan v a = 1 := hadj
    have h3 := ih htail
    simp only [List.length_cons]
    omega

theorem shortestDist_self (g : GridBounds) (obs : List Cell) (s : Cell) :
    ShortestDist g obs s s 0 :=
  ⟨⟨[], (validSeq_nil_iff g obs s s).mpr rfl, rfl⟩, fun _ _ => Nat.zero_le _⟩

theorem closed_length_le (g : GridBounds) (obs : List Cell) (s : Cell)
    (closed : List Cell) (hnd : closed.Nodup)
    (hok : ∀ k ∈ closed, OkCell g obs k ∨ k = s) :
    closed.length ≤ g.cellCount + 1 := by
  have hsub : closed.toFinset ⊆ insert s (gridCellsFinset g) := by
    intro x hx
    rw [List.mem_toFinset] at hx
    rcases hok x hx with h | h
    · exact Finset.mem_insert_of_mem ((mem_gridCellsFinset g x).mpr h.1)
    · rw [h]; exact Finset.mem_insert_self s _
  have hcard := Finset.card_le_card hsub
  have hins : (insert s (gridCellsFinset g)).card ≤ g.cellCount + 1 := by
    have := Finset.card_insert_le s (gridCellsFinset g)
    rw [card_gridCellsFinset] at this
    exact this
  rw [List.toFinset_card_of_nodup hnd] at hcard
  omega

theorem ltInf_irrefl (a : Option Nat) : ltInf a a = false := by
  cases a <;> simp [ltInf]

theorem ltInf_trans_false {x y z : Option Nat} (h1 : ltInf x y = false)
    (h2 : ltInf y z = false) : ltInf x z = false := by
  cases x <;> cases y <;> cases z <;> simp_all [ltInf] <;> omega

theorem ltInf_true_false {a b c : Option Nat} (h1 : ltInf a b = true)
    (h2 : ltInf a c = false) : ltInf b c = false := by
  cases a <;> cases b <;> cases c <;> simp_all [ltInf] <;> omega

/-- The lowest-`fScore` scan: the result's index points at its cell, its score
is its `f`-value, and no scanned cell (nor the accumulator) scores strictly
below it. -/
theorem pickBestAux_spec (f : Cell → Option Nat) (L : List Cell) :
    ∀ (l : List Cell) (i : Nat) (acc : Nat × Cell × Option Nat),
    L.drop i = l → L[acc.1]? = some acc.2.1 → acc.2.2 = f acc.2.1 →
    L[(pickBestAux f l i acc).1]? = some (pickBestAux f l i acc).2.1 ∧
    (pickBestAux f l i acc).2.2 = f (pickBestAux f l i acc).2.1 ∧
    ltInf acc.2.2 (pickBestAux f l i acc).2.2 = false ∧
    ∀ v ∈ l, ltInf (f v) (pickBestAux f l i acc).2.2 = false := by
  intro l
  induction l with
  | nil =>
    intro i acc _ hidx hlink
    refine ⟨hidx, hlink, ?_, ?_⟩
    · simp only [pickBestAux]; exact ltInf_irrefl _
    · intro v hv; cases hv
  | cons c rest ih =>
    intro i acc hdrop hidx hlink
    have hci : L[i]? = some c := by
      have h0 := List.getElem?_drop L i 0
      rw [hdrop] at h0
      simpa using h0.symm
    have hrest : L.drop (i + 1) = rest := by
      have h1 := List.drop_drop 1 i L
      rw [hdrop] at h1
      simpa [Nat.add_comm] using h1.symm
    by_cases hcmp : ltInf (f c) acc.2.2 = true
    · have hstep : pickBestAux f (c :: rest) i acc =
          pickBestAux f rest (i + 1) (i, c, f c) := by
        simp only [pickBestAux, hcmp, if_true]
      obtain ⟨ridx, rlink, racc, rall⟩ :=
        ih (i + 1) (i, c, f c) hrest hci rfl
      rw [hstep]
      refine ⟨ridx, rlink, ltInf_true_false hcmp racc, ?_⟩
      intro v hv
      rcases List.mem_cons.mp hv with h | h
      · rw [h]; exact racc
      · exact rall v h
    · have hcmp' : ltInf (f c) acc.2.2 = false := Bool.not_eq_true _ ▸ hcmp
      have hstep : pickBestAux f (c :: rest) i acc =
          pickBestAux f rest (i + 1) acc := by
        simp only [pickBestAux, hcmp', Bool.false_eq_true, if_false]
      obtain ⟨ridx, rlink, racc, rall⟩ := ih (i + 1) acc hrest hidx hlink
      rw [hstep]
      refine ⟨ridx, rlink, racc, ?_⟩
      intro v hv
      rcases List.mem_cons.mp hv with h | h
      · rw [h]; exact ltInf_trans_false hcmp' racc
      · exact rall v h

theorem pickBest_spec (f : Cell → Option Nat) (c0 : Cell) (rest : List Cell) :
    (c0 :: rest)[(pickBest f c0 rest).1]? = some (pickBest f c0 rest).2.1 ∧
    (pickBest f c0 rest).2.2 = f (pickBest f c0 rest).2.1 ∧
    ∀ v ∈ c0 :: rest, ltInf (f v) (pickBest f c0 rest).2.2 = false := by
  obtain ⟨hidx, hlink, hacc, hall⟩ :=
    pickBestAux_spec f (c0 :: rest) rest 1 (0, c0, f c0) rfl (by simp) rfl
  refine ⟨hidx, hlink, ?_⟩
  intro v hv
  rcases List.mem_cons.mp hv with h | h
  · rw [h]; exact hacc
  · exact hall v h

/-- Popping index `i` by swap-removal: the removed cell together with the rest
is a permutation of the original open list. -/
theorem removeAtSwap_perm (l : List Cell) (i : Nat) (c : Cell)
    (hc : l[i]? = some c) : (c :: removeAtSwap l i).Perm l := by
  obtain ⟨hi, hget⟩ := List.getElem?_eq_some.mp hc
  have hne : l ≠ [] := List.ne_nil_of_length_pos (Nat.lt_of_le_of_lt (Nat.zero_le _) hi)
  have hex : ∃ d lastc, l = d ++ [lastc] :=
    ⟨l.dropLast, l.getLast hne, (List.dropLast_append_getLast hne).symm⟩
  obtain ⟨d, lastc, rfl⟩ := hex
  unfold removeAtSwap
  rw [List.getLast?_concat d]
  dsimp only
  rw [List.dropLast_concat]
  have hi' : i < d.length + 1 := by simpa using hi
  by_cases hcase : i < d.length
  · rw [if_pos hcase]
    have hdi : d[i]? = some c := by
      rw [← hc]
      exact (List.getElem?_append_left hcase).symm
    obtain ⟨hi2, hget2⟩ := List.getElem?_eq_some.mp hdi
    have hd : d.take i ++ c :: d.drop (i + 1) = d := by
      rw [← hget2, List.getElem_cons_drop, List.take_append_drop]
    rw [List.set_eq_take_append_cons_drop, if_pos hcase]
    have p1 : (c :: (d.take i ++ lastc :: d.drop (i + 1))).Perm
        (lastc :: c :: (d.take i ++ d.drop (i + 1))) :=
      (List.Perm.cons c List.perm_middle).trans (List.Perm.swap lastc c _)
    have p2 : (lastc :: c :: (d.take i ++ d.drop (i + 1))).Perm
        (lastc :: (d.take i ++ c :: d.drop (i + 1))) :=
      List.Perm.cons lastc List.perm_middle.symm
    have p3 : (lastc :: (d.take i ++ c :: d.drop (i + 1))).Perm
        ((d.take i ++ c :: d.drop (i + 1)) ++ [lastc]) :=
      @List.perm_append_comm _ [lastc] _
    have he : (d.take i ++ c :: d.drop (i + 1)) ++ [lastc] = d ++ [lastc] := by
      rw [hd]
    exact he ▸ (p1.trans (p2.trans p3))
  · rw [if_neg hcase]
    have hieq : i = d.length := by omega
    have hcl : c = lastc := by
      rw [hieq] at hc
      rw [List.getElem?_append_right (le_refl _)] at hc
      simp at hc
      exact hc.symm
    rw [hcl]
    exact @List.perm_append_comm _ [lastc] d

theorem removeAtSwap_facts (l : List Cell) (i : Nat) (c : Cell)
    (hc : l[i]? = some c) (hnd : l.Nodup) :
    c ∈ l ∧ (removeAtSwap l i).Nodup ∧ c ∉ removeAtSwap l i ∧
    (removeAtSwap l i).length + 1 = l.length ∧
    ∀ v, v ∈ removeAtSwap l i ↔ (v ∈ l ∧ v ≠ c) := by
  have hperm := removeAtSwap_perm l i c hc
  have hnd' : (c :: removeAtSwap l i).Nodup := hperm.nodup_iff.mpr hnd
  obtain ⟨hcnot, hrnd⟩ := List.nodup_cons.mp hnd'
  refine ⟨hperm.mem_iff.mp (List.mem_cons_self _ _), hrnd, hcnot, ?_, ?_⟩
  · simpa using hperm.length_eq
  · intro v
    constructor
    · intro hv
      refine ⟨hperm.mem_iff.mp (List.mem_cons_of_mem _ hv), fun hvc => ?_⟩
      exact hcnot (hvc ▸ hv)
    · rintro ⟨hv, hvc⟩
      rcases List.mem_cons.mp (hperm.mem_iff.mpr hv) with h | h
      · exact absurd h hvc
      · exact h

/-- The invariant holds for `findPath`'s initial state. -/
theorem ainv_init (g : GridBounds) (obs : List Cell) (s e : Cell) :
    AInv g obs s e
      { openSet := [s], closedSet := [],
        cameFrom := fun _ => none,
        gScore := fun c => if c = s then some 0 else none,
        fScore := fun c => if c = s then some (heuristic s e) else none } := by
  constructor
  · simp
  · simp
  · intro v hv
    simp only [List.mem_singleton] at hv
    subst hv
    exact ⟨0, by simp⟩
  · intro k gk hgk
    by_cases hk : k = s
    · right; simp [hk]
    · simp only [if_neg hk] at hgk; cases hgk
  · intro k hk; cases hk
  · intro u hu; cases hu
  · right; simp
  · simp
  · rfl
  · intro k p h; cases h
  · intro k p h; cases h
  · intro k gk hgk hks
    simp only [if_neg hks] at hgk; cases hgk
  · intro k
    by_cases hk : k = s <;> simp [hk]
  · intro k hk; cases hk
  · intro k hk
    simp only [List.mem_singleton] at hk
    right; exact hk
  · intro k gk hgk
    by_cases hk : k = s
    · simp only [if_pos hk, Option.some_inj] at hgk; omega
    · simp only [if_neg hk] at hgk; cases hgk
  · simp

/-- Every cell with a recorded `gScore` is reached by a valid walk of exactly
that length (via the `cameFrom` chain). -/
theorem ainv_gScore_path (g : GridBounds) (obs : List Cell) (s e : Cell)
    (st : AStarState) (inv : AInv g obs s e st) :
    ∀ gk k, st.gScore k = some gk →
    ∃ p, ValidSeq g obs s k p ∧ p.length = gk := by
  intro gk
  induction gk using Nat.strong_induction_on with
  | _ gk ih =>
    intro k hgk
    by_cases hks : k = s
    · subst hks
      have h0 : gk = 0 := by
        rw [inv.gStart] at hgk
        exact (Option.some_inj.mp hgk).symm
      subst h0
      exact ⟨[], (validSeq_nil_iff g obs _ _).mpr rfl, rfl⟩
    · obtain ⟨p, hcf⟩ := inv.chainDef k gk hgk hks
      obtain ⟨hadj, hok, gp, hgp, hgkeq⟩ := inv.chainStep k p hcf
      have hgkgp : gk = gp + 1 := by
        rw [hgk] at hgkeq
        exact Option.some_inj.mp hgkeq
      subst hgkgp
      obtain ⟨q, hq, hqlen⟩ := ih gp (by omega) p hgp
      exact ⟨q ++ [k], validSeq_snoc hq hadj hok, by simp [hqlen]⟩

/-- Walking a valid path from a closed cell to a cell outside the closed set
crosses the open frontier within the path's length budget. -/
theorem ainv_cover_aux (g : GridBounds) (obs : List Cell) (s e : Cell)
    (st : AStarState) (inv : AInv g obs s e st) :
    ∀ (p : List Cell) (v : Cell) (gv : Nat) (t : Cell),
    v ∈ st.closedSet → st.gScore v = some gv → ValidSeq g obs v t p →
    t ∉ st.closedSet →
    ∃ w gw suf, w ∈ st.openSet ∧ st.gScore w = some gw ∧
      gw + suf.length ≤ gv + p.length ∧ ValidSeq g obs w t suf := by
  intro p
  induction p with
  | nil =>
    intro v gv t hvc hgv hval htc
    rw [(validSeq_nil_iff g obs v t).mp hval] at hvc
    exact absurd hvc htc
  | cons a p ih =>
    intro v gv t hvc hgv hval htc
    obtain ⟨htail, hadj, hok⟩ := validSeq_cons g obs hval
    rcases inv.frontier v hvc gv hgv a hadj hok with hclosed | ⟨hopen, ga', hga', hle⟩
    · obtain ⟨ga, hga, hsd⟩ := inv.closedOpt a hclosed
      obtain ⟨gv', hgv', hsdv⟩ := inv.closedOpt v hvc
      have hgveq : gv' = gv := by
        rw [hgv] at hgv'
        exact (Option.some_inj.mp hgv').symm
      subst hgveq
      obtain ⟨pv, hpv, hpvlen⟩ := hsdv.1
      have hext : ValidSeq g obs s a (pv ++ [a]) := validSeq_snoc hpv hadj hok
      have hga_le : ga ≤ gv' + 1 := by
        have := hsd.2 (pv ++ [a]) hext
        simp only [List.length_append, List.length_singleton, hpvlen] at this
        omega
      obtain ⟨w, gw, suf, hw, hgw, hwle, hwval⟩ := ih a ga t hclosed hga htail htc
      exact ⟨w, gw, suf, hw, hgw, by simp only [List.length_cons]; omega, hwval⟩
    · exact ⟨a, ga', p, hopen, hga', by simp only [List.length_cons]; omega, htail⟩

theorem ainv_cover (g : GridBounds) (obs : List Cell) (s e : Cell)
    (st : AStarState) (inv : AInv g obs s e st) (t : Cell)
    (p : List Cell) (hval : ValidSeq g obs s t p) (htc : t ∉ st.closedSet) :
    ∃ w gw suf, w ∈ st.openSet ∧ st.gScore w = some gw ∧
      gw + suf.length ≤ p.length ∧ ValidSeq g obs w t suf := by
  by_cases hsc : s ∈ st.closedSet
  · obtain ⟨w, gw, suf, h1, h2, h3, h4⟩ :=
      ainv_cover_aux g obs s e st inv p s 0 t hsc inv.gStart hval htc
    exact ⟨w, gw, suf, h1, h2, by omega, h4⟩
  · rcases inv.startMem with h | h
    · exact absurd h hsc
    · exact ⟨s, 0, p, h, inv.gStart, by omega, hval⟩

/-- Popping the minimal-`fScore` open cell freezes an optimal distance: the
Manhattan heuristic is consistent, so the popped `gScore` is a shortest-walk
length. -/
theorem ainv_pop_optimal (g : GridBounds) (obs : List Cell) (s e : Cell)
    (st : AStarState) (inv : AInv g obs s e st)
    (current : Cell) (gcur : Nat)
    (hg : st.gScore current = some gcur)
    (hmin : ∀ v ∈ st.openSet, ltInf (st.fScore v) (st.fScore current) = false)
    (hnc : current ∉ st.closedSet) :
    ShortestDist g obs s current gcur := by
  constructor
  · exact ainv_gScore_path g obs s e st inv gcur current hg
  · intro q hq
    obtain ⟨w, gw, suf, hw, hgw, hle, hwval⟩ :=
      ainv_cover g obs s e st inv current q hq hnc
    have hfc : st.fScore current = some (gcur + heuristic current e) := by
      rw [inv.fLink, hg]; rfl
    have hfw : st.fScore w = some (gw + heuristic w e) := by
      rw [inv.fLink, hgw]; rfl
    have hmw := hmin w hw
    rw [hfc, hfw] at hmw
    simp only [ltInf, decide_eq_false_iff_not, not_lt] at hmw
    have h2 : heuristic w e ≤ suf.length + heuristic current e :=
      heuristic_le_of_validSeq hwval
    omega

/-- The `cameFrom` walk of `reconstructPath` produces exactly the recorded
chain: a valid walk whose length is the cell's `gScore`. -/
theorem reconstructAux_spec (g : GridBounds) (obs : List Cell) (s e : Cell)
    (st : AStarState) (inv : AInv g obs s e st) :
    ∀ (fuelR : Nat) (gk : Nat) (k : Cell) (acc : List Cell),
    st.gScore k = some gk → gk < fuelR →
    ∃ q, reconstructPathAux st.cameFrom fuelR k (k :: acc) = s :: (q ++ acc) ∧
      ValidSeq g obs s k q ∧ q.length = gk := by
  intro fuelR
  induction fuelR with
  | zero => intro gk k acc _ h; omega
  | succ fuelR ih =>
    intro gk k acc hgk hlt
    by_cases hks : k = s
    · subst hks
      have h0 : gk = 0 := by
        rw [inv.gStart] at hgk
        exact (Option.some_inj.mp hgk).symm
      refine ⟨[], ?_, (validSeq_nil_iff g obs _ _).mpr rfl, by simp [h0]⟩
      simp only [reconstructPathAux, inv.cfStart, List.nil_append]
    · obtain ⟨p, hcf⟩ := inv.chainDef k gk hgk hks
      obtain ⟨hadj, hok, gp, hgp, hgkeq⟩ := inv.chainStep k p hcf
      have hgkgp : gk = gp + 1 := by
        rw [hgk] at hgkeq
        exact Option.some_inj.mp hgkeq
      obtain ⟨q', heq, hval, hlen⟩ := ih gp p (k :: acc) hgp (by omega)
      refine ⟨q' ++ [k], ?_, validSeq_snoc hval hadj hok, by simp [hlen, hgkgp]⟩
      simp only [reconstructPathAux, hcf]
      rw [heq]
      simp

theorem reconstructPath_spec (g : GridBounds) (obs : List Cell) (s e : Cell)
    (st : AStarState) (inv : AInv g obs s e st)
    (k : Cell) (gk : Nat) (hgk : st.gScore k = some gk)
    (hfuel : gk < astarFuel g) :
    ValidSeq g obs s k (reconstructPath g st.cameFrom k) ∧
      (reconstructPath g st.cameFrom k).length = gk := by
  obtain ⟨q, heq, hval, hlen⟩ :=
    reconstructAux_spec g obs s e st inv (astarFuel g) gk k [] hgk hfuel
  unfold reconstructPath
  rw [heq]
  simpa using ⟨hval, hlen⟩

/-- A successful relaxation (`tentativeG < gScore[neighbor]`) preserves the
mid-expansion invariant, for either resulting open list (unchanged or with the
neighbour pushed). -/
theorem expand_update_midInv (g : GridBounds) (obs : List Cell)
    (s e current n : Cell) (gcur : Nat) (st : AStarState)
    (hadj : Adjacent current n) (hm : MidInv g obs s e current gcur st)
    (hok : OkCell g obs n) (hncl : n ∉ st.closedSet)
    (hupd : ltInf (some (gcur + 1)) (st.gScore n) = true)
    (op : List Cell) (hop1 : op.Nodup) (hop2 : ∀ v ∈ st.openSet, v ∈ op)
    (hop3 : n ∈ op) (hop4 : ∀ v ∈ op, v ∈ st.openSet ∨ v = n) :
    MidInv g obs s e current gcur
      { openSet := op, closedSet := st.closedSet,
        cameFrom := fun c => if c = n then some current else st.cameFrom c,
        gScore := fun c => if c = n then some (gcur + 1) else st.gScore c,
        fScore := fun c => if c = n then
            (some (gcur + 1)).map (fun x => x + heuristic n e)
          else st.fScore c } := by
  have hns : n ≠ s := by
    intro h
    rw [h, hm.gStart] at hupd
    simp [ltInf] at hupd
  have hncur : n ≠ current := fun h => hncl (h ▸ hm.curClosed)
  constructor
  case nodupOpen => exact hop1
  case nodupClosed => exact hm.nodupClosed
  case openG =>
    intro v hv
    by_cases hvn : v = n
    · exact ⟨gcur + 1, by simp [hvn]⟩
    · rcases hop4 v hv with h | h
      · obtain ⟨gv, hgv⟩ := hm.openG v h
        exact ⟨gv, by simp [hvn, hgv]⟩
      · exact absurd h hvn
  case gMem =>
    intro k gk hgk
    by_cases hkn : k = n
    · right; rw [hkn]; exact hop3
    · simp only [if_neg hkn] at hgk
      rcases hm.gMem k gk hgk with h | h
      · exact Or.inl h
      · exact Or.inr (hop2 k h)
  case closedOpt =>
    intro k hk
    have hkn : k ≠ n := fun h => hncl (h ▸ hk)
    obtain ⟨gk, h1, h2⟩ := hm.closedOpt k hk
    exact ⟨gk, by simp [hkn, h1], h2⟩
  case frontierOld =>
    intro u hu hucur gu hgu m hadjm hokm
    have hun : u ≠ n := fun h => hncl (h ▸ hu)
    simp only [if_neg hun] at hgu
    rcases hm.frontierOld u hu hucur gu hgu m hadjm hokm with h | ⟨hmo, gm, hgm, hle⟩
    · exact Or.inl h
    · refine Or.inr ⟨hop2 m hmo, ?_⟩
      by_cases hmn : m = n
      · refine ⟨gcur + 1, by simp [hmn], ?_⟩
        rw [hmn] at hgm
        rw [hgm] at hupd
        simp only [ltInf, decide_eq_true_eq] at hupd
        omega
      · exact ⟨gm, by simp [hmn, hgm], hle⟩
  case startMem =>
    rcases hm.startMem with h | h
    · exact Or.inl h
    · exact Or.inr (hop2 s h)
  case gStart =>
    have hsn : s ≠ n := fun h => hns h.symm
    simp only [if_neg hsn]
    exact hm.gStart
  case cfStart =>
    have hsn : s ≠ n := fun h => hns h.symm
    simp only [if_neg hsn]
    exact hm.cfStart
  case parentClosed =>
    intro k p hcf
    by_cases hkn : k = n
    · have hcf2 : (if k = n then some current else st.cameFrom k) = some p := hcf
      rw [if_pos hkn] at hcf2
      rw [← Option.some_inj.mp hcf2]
      exact hm.curClosed
    · simp only [if_neg hkn] at hcf
      exact hm.parentClosed k p hcf
  case chainStep =>
    intro k p hcf
    by_cases hkn : k = n
    · have hcf2 : (if k = n then some current else st.cameFrom k) = some p := hcf
      rw [if_pos hkn] at hcf2
      have hpk : p = current := (Option.some_inj.mp hcf2).symm
      refine ⟨by rw [hkn, hpk]; exact hadj, by rw [hkn]; exact hok, gcur, ?_, ?_⟩
      · show (if p = n then some (gcur + 1) else st.gScore p) = some gcur
        rw [hpk, if_neg hncur.symm]
        exact hm.gCur
      · show (if k = n then some (gcur + 1) else st.gScore k) = some (gcur + 1)
        rw [if_pos hkn]
    · simp only [if_neg hkn] at hcf
      obtain ⟨ha, hkok, gp, h1, h2⟩ := hm.chainStep k p hcf
      have hpn : p ≠ n := fun h => hncl (h ▸ hm.parentClosed k p hcf)
      exact ⟨ha, hkok, gp, by simp [hpn, h1], by simp [hkn, h2]⟩
  case chainDef =>
    intro k gk hgk hks
    by_cases hkn : k = n
    · exact ⟨current, by simp [hkn]⟩
    · simp only [if_neg hkn] at hgk
      obtain ⟨p, hp⟩ := hm.chainDef k gk hgk hks
      exact ⟨p, by simp [hkn, hp]⟩
  case fLink =>
    intro k
    by_cases hkn : k = n
    · subst hkn
      simp
    · simp only [if_neg hkn]
      exact hm.fLink k
  case closedOk => exact hm.closedOk
  case openOk =>
    intro v hv
    rcases hop4 v hv with h | h
    · exact hm.openOk v h
    · rw [h]; exact Or.inl hok
  case gBound =>
    intro k gk hgk
    by_cases hkn : k = n
    · have hgk2 : (if k = n then some (gcur + 1) else st.gScore k) = some gk := hgk
      rw [if_pos hkn] at hgk2
      have := Option.some_inj.mp hgk2
      have hb := hm.gCurBound
      show gk ≤ st.closedSet.length
      omega
    · simp only [if_neg hkn] at hgk
      exact hm.gBound k gk hgk
  case eNotClosed => exact hm.eNotClosed
  case curClosed => exact hm.curClosed
  case gCur =>
    simp only [if_neg hncur.symm]
    exact hm.gCur
  case gCurBound => exact hm.gCurBound

/-- One `expandNeighbor` call preserves the mid-expansion invariant, keeps the
closed set and the existing open cells, grows the open list by at most one,
preserves accounted-for neighbours, and accounts for the processed
neighbour. -/
theorem expandNeighbor_step (g : GridBounds) (obs : List Cell)
    (s e current n : Cell) (gcur : Nat) (st : AStarState)
    (hadj : Adjacent current n)
    (hm : MidInv g obs s e current gcur st) :
    MidInv g obs s e current gcur (expandNeighbor g obs e current st n) ∧
    (expandNeighbor g obs e current st n).closedSet = st.closedSet ∧
    (∀ v ∈ st.openSet, v ∈ (expandNeighbor g obs e current st n).openSet) ∧
    (expandNeighbor g obs e current st n).openSet.length ≤
      st.openSet.length + 1 ∧
    (∀ m, NeighborDone gcur st m →
      NeighborDone gcur (expandNeighbor g obs e current st n) m) ∧
    (OkCell g obs n → NeighborDone gcur (expandNeighbor g obs e current st n) n) := by
  unfold expandNeighbor
  by_cases hskip : n ∈ obs ∨ ¬ g.inBounds n ∨ n ∈ st.closedSet
  · rw [if_pos hskip]
    refine ⟨hm, rfl, fun v hv => hv, by omega, fun m h => h, ?_⟩
    intro hok
    rcases hskip with h | h | h
    · exact absurd h hok.2
    · exact absurd hok.1 h
    · exact Or.inl h
  · rw [if_neg hskip]
    have hobs : n ∉ obs := fun h => hskip (Or.inl h)
    have hib : g.inBounds n = true := by
      by_contra h
      exact hskip (Or.inr (Or.inl h))
    have hncl : n ∉ st.closedSet := fun h => hskip (Or.inr (Or.inr h))
    have hok : OkCell g obs n := ⟨hib, hobs⟩
    have htg : (st.gScore current).map (fun x => x + 1) = some (gcur + 1) := by
      rw [hm.gCur]; rfl
    rw [htg]
    by_cases hupd : ltInf (some (gcur + 1)) (st.gScore n) = true
    · rw [if_pos hupd]
      dsimp only
      by_cases hmem : n ∈ st.openSet
      · rw [if_pos hmem]
        refine ⟨expand_update_midInv g obs s e current n gcur st hadj hm hok hncl
          hupd st.openSet hm.nodupOpen (fun v hv => hv) hmem (fun v hv => Or.inl hv),
          rfl, fun v hv => hv, Nat.le_succ _, ?_, ?_⟩
        · intro m hdone
          rcases hdone with h | ⟨ho, gm, hgm, hle⟩
          · exact Or.inl h
          · refine Or.inr ⟨ho, ?_⟩
            by_cases hmn : m = n
            · exact ⟨gcur + 1, by simp [hmn], le_refl _⟩
            · exact ⟨gm, by simp [hmn, hgm], hle⟩
        · intro _
          exact Or.inr ⟨hmem, gcur + 1, by simp, le_refl _⟩
      · rw [if_neg hmem]
        have hop1 : (st.openSet ++ [n]).Nodup := by
          rw [List.nodup_append]
          refine ⟨hm.nodupOpen, List.nodup_singleton n, ?_⟩
          intro a ha han
          rw [List.mem_singleton] at han
          exact hmem (han ▸ ha)
        have hop4 : ∀ v ∈ st.openSet ++ [n], v ∈ st.openSet ∨ v = n := by
          intro v hv
          rcases List.mem_append.mp hv with h | h
          · exact Or.inl h
          · exact Or.inr (List.mem_singleton.mp h)
        refine ⟨expand_update_midInv g obs s e current n gcur st hadj hm hok hncl
          hupd (st.openSet ++ [n]) hop1 (fun v hv => List.mem_append_left _ hv)
          (List.mem_append_right _ (List.mem_singleton.mpr rfl)) hop4,
          rfl, fun v hv => List.mem_append_left _ hv, by simp, ?_, ?_⟩
        · intro m hdone
          rcases hdone with h | ⟨ho, gm, hgm, hle⟩
          · exact Or.inl h
          · refine Or.inr ⟨List.mem_append_left _ ho, ?_⟩
            by_cases hmn : m = n
            · exact ⟨gcur + 1, by simp [hmn], le_refl _⟩
            · exact ⟨gm, by simp [hmn, hgm], hle⟩
        · intro _
          exact Or.inr ⟨List.mem_append_right _ (List.mem_singleton.mpr rfl),
            gcur + 1, by simp, le_refl _⟩
    · rw [if_neg hupd]
      refine ⟨hm, rfl, fun v hv => hv, by omega, fun m h => h, ?_⟩
      intro _
      cases hgn : st.gScore n with
      | none => rw [hgn] at hupd; simp [ltInf] at hupd
      | some gn =>
        rw [hgn] at hupd
        simp only [ltInf, decide_eq_true_eq, Decidable.not_not] at hupd
        have hle : gn ≤ gcur + 1 := by omega
        rcases hm.gMem n gn hgn with h | h
        · exact Or.inl h
        · exact Or.inr ⟨h, gn, hgn, hle⟩

/-- Folding `expandNeighbor` over a list of neighbours of `current` preserves
the mid-expansion invariant and accounts for every passable neighbour in the
list. -/
theorem expand_foldl_spec (g : GridBounds) (obs : List Cell)
    (s e current : Cell) (gcur : Nat) :
    ∀ (todo : List Cell) (st : AStarState),
    MidInv g obs s e current gcur st →
    (∀ n ∈ todo, Adjacent current n) →
    MidInv g obs s e current gcur
      (todo.foldl (expandNeighbor g obs e current) st) ∧
    (todo.foldl (expandNeighbor g obs e current) st).closedSet = st.closedSet ∧
    (∀ v ∈ st.openSet,
      v ∈ (todo.foldl (expandNeighbor g obs e current) st).openSet) ∧
    (todo.foldl (expandNeighbor g obs e current) st).openSet.length ≤
      st.openSet.length + todo.length ∧
    (∀ m, NeighborDone gcur st m →
      NeighborDone gcur (todo.foldl (expandNeighbor g obs e current) st) m) ∧
    (∀ n ∈ todo, OkCell g obs n →
      NeighborDone gcur (todo.foldl (expandNeighbor g obs e current) st) n) := by
  intro todo
  induction todo with
  | nil =>
    intro st hm _
    exact ⟨hm, rfl, fun v hv => hv, by simp, fun m h => h,
      fun n hn => absurd hn (List.not_mem_nil n)⟩
  | cons a todo ih =>
    intro st hm hadj
    obtain ⟨hm1, hcl1, hmo1, hlen1, hpre1, hdone1⟩ :=
      expandNeighbor_step g obs s e current a gcur st
        (hadj a (List.mem_cons_self a todo)) hm
    obtain ⟨hm2, hcl2, hmo2, hlen2, hpre2, hdone2⟩ :=
      ih (expandNeighbor g obs e current st a) hm1
        (fun n hn => hadj n (List.mem_cons_of_mem a hn))
    rw [List.foldl_cons]
    refine ⟨hm2, by rw [hcl2, hcl1], fun v hv => hmo2 v (hmo1 v hv), ?_,
      fun m h => hpre2 m (hpre1 m h), ?_⟩
    · simp only [List.length_cons]
      omega
    · intro n hn hokn
      rcases List.mem_cons.mp hn with rfl | h
      · exact hpre2 n (hdone1 hokn)
      · exact hdone2 n h hokn

/-- Moving the popped minimal cell to the closed set turns the loop invariant
into the mid-expansion invariant. -/
theorem ainv_close (g : GridBounds) (obs : List Cell) (s e : Cell)
    (st : AStarState) (inv : AInv g obs s e st)
    (current : Cell) (gcur : Nat) (op' : List Cell)
    (hg : st.gScore current = some gcur)
    (hnc : current ∉ st.closedSet)
    (hco : current ∈ st.openSet)
    (hnd' : op'.Nodup)
    (hmem' : ∀ v, v ∈ op' ↔ (v ∈ st.openSet ∧ v ≠ current))
    (hsd : ShortestDist g obs s current gcur)
    (hce : current ≠ e) :
    MidInv g obs s e current gcur
      { openSet := op', closedSet := current :: st.closedSet,
        cameFrom := st.cameFrom, gScore := st.gScore, fScore := st.fScore } := by
  constructor
  case nodupOpen => exact hnd'
  case nodupClosed => exact List.nodup_cons.mpr ⟨hnc, inv.nodupClosed⟩
  case openG => intro v hv; exact inv.openG v ((hmem' v).mp hv).1
  case gMem =>
    intro k gk hgk
    rcases inv.gMem k gk hgk with h | h
    · exact Or.inl (List.mem_cons_of_mem _ h)
    · by_cases hkc : k = current
      · exact Or.inl (by rw [hkc]; exact List.mem_cons_self _ _)
      · exact Or.inr ((hmem' k).mpr ⟨h, hkc⟩)
  case closedOpt =>
    intro k hk
    rcases List.mem_cons.mp hk with rfl | h
    · exact ⟨gcur, hg, hsd⟩
    · exact inv.closedOpt k h
  case frontierOld =>
    intro u hu hucur gu hgu m hadjm hokm
    have hu' : u ∈ st.closedSet := by
      rcases List.mem_cons.mp hu with h | h
      · exact absurd h hucur
      · exact h
    rcases inv.frontier u hu' gu hgu m hadjm hokm with h | ⟨hmo, gm, hgm, hle⟩
    · exact Or.inl (List.mem_cons_of_mem _ h)
    · by_cases hmc : m = current
      · exact Or.inl (by rw [hmc]; exact List.mem_cons_self _ _)
      · exact Or.inr ⟨(hmem' m).mpr ⟨hmo, hmc⟩, gm, hgm, hle⟩
  case startMem =>
    rcases inv.startMem with h | h
    · exact Or.inl (List.mem_cons_of_mem _ h)
    · by_cases hsc : s = current
      · exact Or.inl (by rw [hsc]; exact List.mem_cons_self _ _)
      · exact Or.inr ((hmem' s).mpr ⟨h, hsc⟩)
  case gStart => exact inv.gStart
  case cfStart => exact inv.cfStart
  case parentClosed =>
    intro k p hcf
    exact List.mem_cons_of_mem _ (inv.parentClosed k p hcf)
  case chainStep => exact inv.chainStep
  case chainDef => exact inv.chainDef
  case fLink => exact inv.fLink
  case closedOk =>
    intro k hk
    rcases List.mem_cons.mp hk with rfl | h
    · exact inv.openOk k hco
    · exact inv.closedOk k h
  case openOk => intro k hk; exact inv.openOk k ((hmem' k).mp hk).1
  case gBound =>
    intro k gk hgk
    have := inv.gBound k gk hgk
    show gk ≤ (current :: st.closedSet).length
    simp only [List.length_cons]
    omega
  case eNotClosed =>
    intro h
    rcases List.mem_cons.mp h with h' | h'
    · exact hce h'.symm
    · exact inv.eNotClosed h'
  case curClosed => exact List.mem_cons_self _ _
  case gCur => exact hg
  case gCurBound =>
    have := inv.gBound current gcur hg
    show gcur + 1 ≤ (current :: st.closedSet).length
    simp only [List.length_cons]
    omega

/-- Once every passable neighbour of `current` is accounted for, the
mid-expansion invariant gives back the full loop invariant. -/
theorem midInv_to_ainv (g : GridBounds) (obs : List Cell) (s e current : Cell)
    (gcur : Nat) (st : AStarState)
    (hm : MidInv g obs s e current gcur st)
    (hfront : ∀ m, Adjacent current m → OkCell g obs m →
      NeighborDone gcur st m) :
    AInv g obs s e st := by
  constructor
  case nodupOpen => exact hm.nodupOpen
  case nodupClosed => exact hm.nodupClosed
  case openG => exact hm.openG
  case gMem => exact hm.gMem
  case closedOpt => exact hm.closedOpt
  case frontier =>
    intro u hu gu hgu m hadjm hokm
    by_cases huc : u = current
    · have hgu' : gu = gcur := by
        rw [huc, hm.gCur] at hgu
        exact (Option.some_inj.mp hgu).symm
      rcases hfront m (by rw [← huc]; exact hadjm) hokm with h | ⟨h1, gm, h2, h3⟩
      · exact Or.inl h
      · exact Or.inr ⟨h1, gm, h2, by omega⟩
    · exact hm.frontierOld u hu huc gu hgu m hadjm hokm
  case startMem => exact hm.startMem
  case gStart => exact hm.gStart
  case cfStart => exact hm.cfStart
  case parentClosed => exact hm.parentClosed
  case chainStep => exact hm.chainStep
  case chainDef => exact hm.chainDef
  case fLink => exact hm.fLink
  case closedOk => exact hm.closedOk
  case openOk => exact hm.openOk
  case gBound => exact hm.gBound
  case eNotClosed => exact hm.eNotClosed

/-- Dropping an already-closed popped cell from the open list preserves the
loop invariant. -/
theorem ainv_drop_closed (g : GridBounds) (obs : List Cell) (s e : Cell)
    (st : AStarState) (inv : AInv g obs s e st)
    (current : Cell) (op' : List Cell)
    (hcc : current ∈ st.closedSet)
    (hnd' : op'.Nodup)
    (hmem' : ∀ v, v ∈ op' ↔ (v ∈ st.openSet ∧ v ≠ current)) :
    AInv g obs s e { st with openSet := op' } := by
  constructor
  case nodupOpen => exact hnd'
  case nodupClosed => exact inv.nodupClosed
  case openG => intro v hv; exact inv.openG v ((hmem' v).mp hv).1
  case gMem =>
    intro k gk hgk
    rcases inv.gMem k gk hgk with h | h
    · exact Or.inl h
    · by_cases hkc : k = current
      · exact Or.inl (by rw [hkc]; exact hcc)
      · exact Or.inr ((hmem' k).mpr ⟨h, hkc⟩)
  case closedOpt => exact inv.closedOpt
  case frontier =>
    intro u hu gu hgu m hadjm hokm
    rcases inv.frontier u hu gu hgu m hadjm hokm with h | ⟨hmo, gm, hgm, hle⟩
    · exact Or.inl h
    · by_cases hmc : m = current
      · exact Or.inl (by rw [hmc]; exact hcc)
      · exact Or.inr ⟨(hmem' m).mpr ⟨hmo, hmc⟩, gm, hgm, hle⟩
  case startMem =>
    rcases inv.startMem with h | h
    · exact Or.inl h
    · by_cases hsc : s = current
      · exact Or.inl (by rw [hsc]; exact hcc)
      · exact Or.inr ((hmem' s).mpr ⟨h, hsc⟩)
  case gStart => exact inv.gStart
  case cfStart => exact inv.cfStart
  case parentClosed => exact inv.parentClosed
  case chainStep => exact inv.chainStep
  case chainDef => exact inv.chainDef
  case fLink => exact inv.fLink
  case closedOk => exact inv.closedOk
  case openOk => intro k hk; exact inv.openOk k ((hmem' k).mp hk).1
  case gBound => exact inv.gBound
  case eNotClosed => exact inv.eNotClosed

/-- The A* main loop, run with sufficient fuel from an invariant state: a
returned path is a valid, non-empty, shortest walk from `s` to `e`; `null` is
returned only when no valid walk exists; and the fuel never runs out. -/
theorem findPathLoop_spec (g : GridBounds) (obs : List Cell) (s e : Cell)
    (hse : s ≠ e) :
    ∀ (fuel : Nat) (st : AStarState), AInv g obs s e st →
    5 * (g.cellCount + 1 - st.closedSet.length) + st.openSet.length < fuel →
    (∀ p, findPathLoop g obs e fuel st = some (some p) →
      ValidSeq g obs s e p ∧ p ≠ [] ∧
      ∀ q, ValidSeq g obs s e q → p.length ≤ q.length) ∧
    (findPathLoop g obs e fuel st = some none → ∀ q, ¬ ValidSeq g obs s e q) ∧
    findPathLoop g obs e fuel st ≠ none := by
  intro fuel
  induction fuel with
  | zero => intro st _ hfuel; exact absurd hfuel (by omega)
  | succ fuel ih =>
    intro st inv hfuel
    cases hop : st.openSet with
    | nil =>
      have heq : findPathLoop g obs e (fuel + 1) st = some none := by
        simp only [findPathLoop, hop]
      rw [heq]
      refine ⟨?_, ?_, by simp⟩
      · intro p hp
        simp at hp
      · intro _ q hq
        obtain ⟨w, gw, suf, hw, _, _, _⟩ :=
          ainv_cover g obs s e st inv e q hq inv.eNotClosed
        rw [hop] at hw
        cases hw
    | cons c0 rest =>
      have hex : ∃ bi cur bs, pickBest st.fScore c0 rest = (bi, cur, bs) :=
        ⟨_, _, _, rfl⟩
      obtain ⟨bi, cur, bs, hb⟩ := hex
      obtain ⟨hidx, hflink, hmin⟩ := pickBest_spec st.fScore c0 rest
      rw [hb] at hidx hflink hmin
      dsimp only at hidx hflink hmin
      obtain ⟨hcurmem, hnd', hnotmem', hlen', hmemiff'⟩ :=
        removeAtSwap_facts (c0 :: rest) bi cur hidx (hop ▸ inv.nodupOpen)
      have hmem2 : ∀ v, v ∈ removeAtSwap (c0 :: rest) bi ↔
          (v ∈ st.openSet ∧ v ≠ cur) := by
        intro v
        rw [hop]
        exact hmemiff' v
      have hco : cur ∈ st.openSet := by rw [hop]; exact hcurmem
      have hlenst : st.openSet.length =
          (removeAtSwap (c0 :: rest) bi).length + 1 := by
        rw [hop, ← hlen']
      simp only [findPathLoop, hop, hb]
      by_cases hcc : cur ∈ st.closedSet
      · rw [if_pos hcc]
        refine ih _ (ainv_drop_closed g obs s e st inv cur _ hcc hnd' hmem2) ?_
        show 5 * (g.cellCount + 1 - st.closedSet.length) +
          (removeAtSwap (c0 :: rest) bi).length < fuel
        omega
      · rw [if_neg hcc]
        obtain ⟨gcur, hg⟩ := inv.openG cur hco
        have hmin2 : ∀ v ∈ st.openSet,
            ltInf (st.fScore v) (st.fScore cur) = false := by
          intro v hv
          rw [hop] at hv
          have h := hmin v hv
          rwa [hflink] at h
        have hsd := ainv_pop_optimal g obs s e st inv cur gcur hg hmin2 hcc
        by_cases hce : cur = e
        · rw [if_pos hce]
          refine ⟨?_, by intro h; simp at h, by simp⟩
          intro p hp
          have hpe : reconstructPath g st.cameFrom cur = p :=
            Option.some_inj.mp (Option.some_inj.mp hp)
          have hfuelg : gcur < astarFuel g := by
            have h1 := inv.gBound cur gcur hg
            have h2 := closed_length_le g obs s st.closedSet
              inv.nodupClosed inv.closedOk
            unfold astarFuel
            omega
          obtain ⟨hval, hlen⟩ :=
            reconstructPath_spec g obs s e st inv cur gcur hg hfuelg
          rw [hpe] at hval hlen
          rw [hce] at hval hsd
          refine ⟨hval, ?_, ?_⟩
          · intro hnil
            rw [hnil] at hval
            exact hse ((validSeq_nil_iff g obs s e).mp hval)
          · intro q hq
            rw [hlen]
            exact hsd.2 q hq
        · rw [if_neg hce]
          have hm0 := ainv_close g obs s e st inv cur gcur _ hg hcc hco hnd'
            hmem2 hsd hce
          obtain ⟨hm2, hcl2, hmo2, hlen2, hpre2, hdone2⟩ :=
            expand_foldl_spec g obs s e cur gcur (getNeighbors cur)
              { openSet := removeAtSwap (c0 :: rest) bi,
                closedSet := cur :: st.closedSet,
                cameFrom := st.cameFrom, gScore := st.gScore,
                fScore := st.fScore }
              hm0 (fun n hn => (adjacent_iff_mem_getNeighbors cur n).mp hn)
          have hfront : ∀ m, Adjacent cur m → OkCell g obs m →
              NeighborDone gcur ((getNeighbors cur).foldl
                (expandNeighbor g obs e cur)
                { openSet := removeAtSwap (c0 :: rest) bi,
                  closedSet := cur :: st.closedSet,
                  cameFrom := st.cameFrom, gScore := st.gScore,
                  fScore := st.fScore }) m := by
            intro m hadjm hokm
            exact hdone2 m ((adjacent_iff_mem_getNeighbors cur m).mpr hadjm) hokm
          have hinv2 := midInv_to_ainv g obs s e cur gcur _ hm2 hfront
          refine ih _ hinv2 ?_
          have hclr : ((getNeighbors cur).foldl (expandNeighbor g obs e cur)
              { openSet := removeAtSwap (c0 :: rest) bi,
                closedSet := cur :: st.closedSet,
                cameFrom := st.cameFrom, gScore := st.gScore,
                fScore := st.fScore }).closedSet = cur :: st.closedSet := hcl2
          have hc1 : ((getNeighbors cur).foldl (expandNeighbor g obs e cur)
              { openSet := removeAtSwap (c0 :: rest) bi,
                closedSet := cur :: st.closedSet,
                cameFrom := st.cameFrom, gScore := st.gScore,
                fScore := st.fScore }).closedSet.length =
              st.closedSet.length + 1 := by
            rw [hclr, List.length_cons]
          have hrb : st.closedSet.length + 1 ≤ g.cellCount + 1 := by
            have h2 := closed_length_le g obs s _ hm2.nodupClosed hm2.closedOk
            omega
          have hob : ((getNeighbors cur).foldl (expandNeighbor g obs e cur)
              { openSet := removeAtSwap (c0 :: rest) bi,
                closedSet := cur :: st.closedSet,
                cameFrom := st.cameFrom, gScore := st.gScore,
                fScore := st.fScore }).openSet.length ≤
              (removeAtSwap (c0 :: rest) bi).length + 4 := by
            have h4 : (getNeighbors cur).length = 4 := rfl
            have h5 := hlen2
            rw [h4] at h5
            exact h5
          omega

theorem validSeq_suffix {g : GridBounds} {obs : List Cell} {e a : Cell} :
    ∀ {p1 p2 : List Cell} {s : Cell}, ValidSeq g obs s e (p1 ++ a :: p2) →
    ValidSeq g obs a e p2 := by
  intro p1
  induction p1 with
  | nil => intro p2 s h; exact (validSeq_cons g obs h).1
  | cons b p1 ih => intro p2 s h; exact ih (validSeq_cons g obs h).1

/-- `findPath`, fully characterised: a returned path is a valid shortest walk,
empty exactly for `start = e`; `null` is returned exactly when no valid walk
exists. -/
theorem findPath_spec (g : GridBounds) (start e : Cell) (obs : List Cell) :
    (∀ p, findPath g start e obs = some p →
      ValidSeq g obs start e p ∧ (p = [] ↔ start = e) ∧
      ∀ q, ValidSeq g obs start e q → p.length ≤ q.length) ∧
    (findPath g start e obs = none ↔ ¬ ∃ p, ValidSeq g obs start e p) := by
  unfold findPath
  by_cases hxe : start.x = e.x ∧ start.z = e.z
  · have hseq : start = e := Cell.eq_iff.mpr hxe
    rw [if_pos hxe]
    constructor
    · intro p hp
      have hpe : p = [] := (Option.some_inj.mp hp).symm
      subst hpe
      refine ⟨(validSeq_nil_iff g obs start e).mpr hseq, by simp [hseq], ?_⟩
      intro q _
      simp
    · constructor
      · intro h; exact Option.noConfusion h
      · intro h
        exact absurd ⟨[], (validSeq_nil_iff g obs start e).mpr hseq⟩ h
  · rw [if_neg hxe]
    have hse : start ≠ e := by
      intro h
      exact hxe (by rw [h]; exact ⟨rfl, rfl⟩)
    have hmeas : 5 * (g.cellCount + 1 - ([] : List Cell).length) +
        ([start] : List Cell).length < astarFuel g := by
      unfold astarFuel
      simp only [List.length_nil, List.length_singleton]
      omega
    obtain ⟨hsome, hnone, hnn⟩ := findPathLoop_spec g obs start e hse (astarFuel g)
      { openSet := [start], closedSet := [],
        cameFrom := fun _ => none,
        gScore := fun c => if c = start then some 0 else none,
        fScore := fun c => if c = start then some (heuristic start e) else none }
      (ainv_init g obs start e) hmeas
    set F := findPathLoop g obs e (astarFuel g)
      { openSet := [start], closedSet := [],
        cameFrom := fun _ => none,
        gScore := fun c => if c = start then some 0 else none,
        fScore := fun c => if c = start then some (heuristic start e) else none }
      with hF
    cases hFv : F with
    | none => exact absurd hFv hnn
    | some r =>
      cases r with
      | none =>
        dsimp only
        refine ⟨?_, ?_⟩
        · intro p hp
          exact Option.noConfusion hp
        · constructor
          · rintro _ ⟨p, hp⟩
            exact hnone hFv p hp
          · intro _; rfl
      | some p0 =>
        dsimp only
        obtain ⟨hval, hnnil, hminp⟩ := hsome p0 hFv
        refine ⟨?_, ?_⟩
        · intro p hp
          have hpe : p0 = p := Option.some_inj.mp hp
          subst hpe
          refine ⟨hval, ?_, hminp⟩
          constructor
          · intro h; exact absurd h hnnil
          · intro h; exact absurd h hse
        · constructor
          · intro h; exact Option.noConfusion h
          · intro h; exact absurd ⟨p0, hval⟩ h

/-- C4: every sequence returned by `findPath(start, end, obstacles)` excludes
`start`, ends at `end`, steps only between Manhattan-adjacent cells (including
the step from `start` to the first element), and stays in bounds and off the
obstacle set (all bundled in `ValidSeq`); the empty sequence is returned iff
`start = end`; and `null` is returned exactly when no such walk exists. -/
theorem C4_findPath_correct (g : GridBounds) (start e : Cell)
    (obstacles : List Cell) :
    (∀ p, findPath g start e obstacles = some p →
      ValidSeq g obstacles start e p ∧ start ∉ p ∧ (p = [] ↔ start = e)) ∧
    (findPath g start e obstacles = none ↔
      ¬ ∃ p, ValidSeq g obstacles start e p) := by
  obtain ⟨hsome, hnone⟩ := findPath_spec g start e obstacles
  refine ⟨?_, hnone⟩
  intro p hp
  obtain ⟨hval, hiff, hminp⟩ := hsome p hp
  refine ⟨hval, ?_, hiff⟩
  intro hmem
  obtain ⟨p1, p2, rfl⟩ := List.append_of_mem hmem
  have hsuf := validSeq_suffix hval
  have hle := hminp p2 hsuf
  simp only [List.length_append, List.length_cons] at hle
  omega

/-- Witness for `C4_findPath_correct` on the 2×2 grid with an obstacle. -/
theorem C4_findPath_correct_witness :
    ValidSeq grid22 [⟨1, 0⟩] ⟨0, 0⟩ ⟨1, 1⟩ [⟨0, 1⟩, ⟨1, 1⟩] ∧
    (⟨0, 0⟩ : Cell) ∉ ([⟨0, 1⟩, ⟨1, 1⟩] : List Cell) ∧
    (([⟨0, 1⟩, ⟨1, 1⟩] : List Cell) = [] ↔ (⟨0, 0⟩ : Cell) = ⟨1, 1⟩) :=
  (C4_findPath_correct grid22 ⟨0, 0⟩ ⟨1, 1⟩ [⟨1, 0⟩]).1
    [⟨0, 1⟩, ⟨1, 1⟩] (by decide)

/-- C10: every path returned by `findPath` is shortest — its length is the
minimum length over all 4-connected, in-bounds, obstacle-avoiding walks from
`start` to `end`. -/
theorem C10_findPath_shortest (g : GridBounds) (start e : Cell)
    (obstacles : List Cell) (p : List Cell)
    (hp : findPath g start e obstacles = some p) :
    ShortestDist g obstacles start e p.length := by
  obtain ⟨hsome, _⟩ := findPath_spec g start e obstacles
  obtain ⟨hval, _, hminp⟩ := hsome p hp
  exact ⟨⟨p, hval, rfl⟩, hminp⟩

/-- Witness for `C10_findPath_shortest` on the 2×2 grid with an obstacle. -/
theorem C10_findPath_shortest_witness :
    ShortestDist grid22 [⟨1, 0⟩] ⟨0, 0⟩ ⟨1, 1⟩
      ([⟨0, 1⟩, ⟨1, 1⟩] : List Cell).length :=
  C10_findPath_shortest grid22 ⟨0, 0⟩ ⟨1, 1⟩ [⟨1, 0⟩]
    [⟨0, 1⟩, ⟨1, 1⟩] (by decide)

end Snake
